import Mathlib

/-!
# Verification of `mulesoft_downloader.py`

A shallow embedding of the single-file MuleSoft CloudHub application
downloader.  Python JSON values become an inductive `Json` type with
Python's truthiness and `dict.get` semantics; the network is an oracle
supplying each endpoint's response; the filesystem is an explicit state
of directories and files; console output and HTTP traffic are recorded
as an event trace.  The pipeline functions (`_load_config`,
`_setup_base_urls`, `_setup_session`, `_setup_download_dir`,
`get_applications`, `get_application_info`, `download_application`,
`process_all_applications`) are translated clause by clause from the
source.
-/

namespace MulesoftDownloader

/-- JSON values as Python's `json` module materialises them: objects are
ordered association lists (Python dicts preserve insertion order), numbers
are modelled as integers (the records this program consumes carry strings
and integers; floats are outside the model). -/
inductive Json where
  | null : Json
  | bool (b : Bool) : Json
  | num (n : Int) : Json
  | str (s : String) : Json
  | arr (elems : List Json) : Json
  | obj (fields : List (String × Json)) : Json

/-- Structural induction for the nested inductive `Json`. -/
theorem Json.ind {P : Json → Prop}
    (hnull : P .null) (hbool : ∀ b, P (.bool b)) (hnum : ∀ n, P (.num n))
    (hstr : ∀ s, P (.str s))
    (harr : ∀ l, (∀ x ∈ l, P x) → P (.arr l))
    (hobj : ∀ l, (∀ p ∈ l, P p.2) → P (.obj l)) :
    ∀ j, P j
  | .null => hnull
  | .bool b => hbool b
  | .num n => hnum n
  | .str s => hstr s
  | .arr l => harr l (fun x hx =>
      have h : sizeOf x < sizeOf l := List.sizeOf_lt_of_mem hx
      Json.ind hnull hbool hnum hstr harr hobj x)
  | .obj l => hobj l (fun p hp =>
      have h1 : sizeOf p < sizeOf l := List.sizeOf_lt_of_mem hp
      have h2 : sizeOf p.2 < sizeOf p := by
        obtain ⟨a, b⟩ := p
        simp only [Prod.mk.sizeOf_spec]
        omega
      Json.ind hnull hbool hnum hstr harr hobj p.2)
termination_by j => sizeOf j
decreasing_by
  · simp only [Json.arr.sizeOf_spec]; omega
  · simp only [Json.obj.sizeOf_spec]; omega

/-- Python truthiness (`if not x`) of a JSON value: `None`, `False`, `0`,
`""`, `[]` and the empty dict are falsy. -/
def Json.truthy : Json → Bool
  | .null => false
  | .bool b => b
  | .num n => n ≠ 0
  | .str s => s ≠ ""
  | .arr l => !l.isEmpty
  | .obj l => !l.isEmpty

/-- The Python exceptions this program can meet.  All of them derive from
`Exception`, so every one is caught by an `except Exception` handler;
only `exc` (plain `Exception`) is raised by the program itself, the rest
come from the runtime. -/
inductive PyError where
  | attributeError (msg : String) : PyError
  | typeError (msg : String) : PyError
  | keyError (msg : String) : PyError
  | valueError (msg : String) : PyError
  | exc (msg : String) : PyError
deriving Repr, DecidableEq

/-- The message a handler's `print(f"... {e}")` interpolates. -/
def PyError.msg : PyError → String
  | .attributeError m => m
  | .typeError m => m
  | .keyError m => m
  | .valueError m => m
  | .exc m => m

/-- `x.get(key)` on an arbitrary value: dictionaries answer with the
stored value or `None`; any other value has no `get` attribute and the
call raises `AttributeError`. -/
def Json.dictGet : Json → String → Except PyError Json
  | .obj fields, k =>
      match fields.find? (fun p => p.1 = k) with
      | some p => .ok p.2
      | none => .ok .null
  | _, _ => .error (.attributeError "object has no attribute get")

/-- `d[key]` on a value (used for `response.json()["access_token"]`):
missing key raises `KeyError`, non-dict raises `TypeError`. -/
def Json.index (j : Json) (k : String) : Except PyError Json :=
  match j with
  | .obj fields =>
      match fields.find? (fun p => p.1 = k) with
      | some p => .ok p.2
      | none => .error (.keyError k)
  | _ => .error (.typeError "value is not subscriptable")

/-- `len(x)`: defined for strings, lists and dicts; `TypeError` otherwise. -/
def pyLen : Json → Except PyError Nat
  | .str s => .ok s.length
  | .arr l => .ok l.length
  | .obj l => .ok l.length
  | _ => .error (.typeError "object has no len")

/-- Iterating a value (`for x in v`): lists yield their elements, strings
their characters, dicts their keys; other values raise `TypeError`. -/
def pyIter : Json → Except PyError (List Json)
  | .arr l => .ok l
  | .str s => .ok (s.data.map (fun c => Json.str (String.mk [c])))
  | .obj l => .ok (l.map (fun p => Json.str p.1))
  | _ => .error (.typeError "object is not iterable")

/-- `repr()` of a JSON value, used by `str()` on containers.  String
escaping inside `repr` is not modelled (no claim depends on it). -/
def pyRepr : Json → String
  | .null => "None"
  | .bool b => if b then "True" else "False"
  | .num n => toString n
  | .str s => "'" ++ s ++ "'"
  | .arr l => "[" ++ String.intercalate ", " (l.attach.map (fun x => pyRepr x.1)) ++ "]"
  | .obj l => "\x7b" ++ String.intercalate ", "
      (l.attach.map (fun p => "'" ++ p.1.1 ++ "': " ++ pyRepr p.1.2)) ++ "\x7d"
decreasing_by
  · have := List.sizeOf_lt_of_mem x.2
    simp only [Json.arr.sizeOf_spec]
    omega
  · have h1 := List.sizeOf_lt_of_mem p.2
    have h2 : sizeOf p.1.2 < sizeOf p.1 := by
      obtain ⟨⟨a, b⟩, hp⟩ := p
      simp only [Prod.mk.sizeOf_spec]
      omega
    simp only [Json.obj.sizeOf_spec]
    omega

/-- `str()` of a JSON value, as an f-string interpolates it. -/
def pyStr : Json → String
  | .str s => s
  | v => pyRepr v

/-! ## The `json` module: serialisation (`json.dump(..., indent=2)`)

CPython with `indent=2` writes containers one item per line, each line
prefixed by the current indentation, with `", "`-free separators
`(',', ': ')`; empty containers collapse to `[]` / `{}`.  `ensure_ascii`
(the default) keeps printable ASCII verbatim, uses the two-character
escapes of its escape table, and `\uXXXX` (surrogate pairs above the
BMP) for everything else.  Rendering works on `List Char` so that the
round-trip proofs can reason by list induction. -/

/-- Decimal digits of `n`, most significant first. -/
def natDigits (n : Nat) : List Char :=
  if n < 10 then [Nat.digitChar n]
  else natDigits (n / 10) ++ [Nat.digitChar (n % 10)]
decreasing_by exact Nat.div_lt_self (by omega) (by omega)

/-- Rendering of an integer, as `json.dump` writes Python ints. -/
def intRender (n : Int) : List Char :=
  if n < 0 then '-' :: natDigits n.natAbs else natDigits n.natAbs

/-- Four lower-case hex digits of `n < 0x10000`, as CPython's
`'\\u%04x'` formats them. -/
def hex4 (n : Nat) : List Char :=
  [Nat.digitChar (n / 4096 % 16), Nat.digitChar (n / 256 % 16),
   Nat.digitChar (n / 16 % 16), Nat.digitChar (n % 16)]

/-- The escape CPython's `ensure_ascii` encoder emits for one character:
the escape table's two-character escapes, printable ASCII verbatim,
`\uXXXX` otherwise, astral characters as a surrogate pair. -/
def escapeChar (c : Char) : List Char :=
  if c = '"' then ['\\', '"']
  else if c = '\\' then ['\\', '\\']
  else if c = '\n' then ['\\', 'n']
  else if c = '\t' then ['\\', 't']
  else if c = '\r' then ['\\', 'r']
  else if c = '\x08' then ['\\', 'b']
  else if c = '\x0c' then ['\\', 'f']
  else if 0x20 ≤ c.toNat ∧ c.toNat ≤ 0x7e then [c]
  else if c.toNat < 0x10000 then '\\' :: 'u' :: hex4 c.toNat
  else
    let v := c.toNat - 0x10000
    ('\\' :: 'u' :: hex4 (0xD800 + v / 0x400)) ++ ('\\' :: 'u' :: hex4 (0xDC00 + v % 0x400))

/-- Escape a whole string body. -/
def escapeList : List Char → List Char
  | [] => []
  | c :: cs => escapeChar c ++ escapeList cs

/-- A newline followed by the current indentation. -/
def newlineIndent (ind : Nat) : List Char :=
  '\n' :: List.replicate ind ' '

mutual

/-- `json.dump(v, f, indent=2)` at indentation level `ind` (in spaces). -/
def renderJson (ind : Nat) : Json → List Char
  | .null => "null".data
  | .bool true => "true".data
  | .bool false => "false".data
  | .num n => intRender n
  | .str s => '"' :: (escapeList s.data ++ ['"'])
  | .arr [] => "[]".data
  | .arr (x :: xs) =>
      '[' :: (newlineIndent (ind + 2) ++ renderJson (ind + 2) x ++
        renderElems (ind + 2) xs ++ newlineIndent ind ++ [']'])
  | .obj [] => "\x7b\x7d".data
  | .obj (p :: ps) =>
      '\x7b' :: (newlineIndent (ind + 2) ++ renderField (ind + 2) p ++
        renderFields (ind + 2) ps ++ newlineIndent ind ++ ['\x7d'])

termination_by j => sizeOf j
decreasing_by
  all_goals simp only [Json.arr.sizeOf_spec, Json.obj.sizeOf_spec,
    List.cons.sizeOf_spec, Prod.mk.sizeOf_spec]; omega

/-- The remaining array items, each preceded by `,` and a fresh line. -/
def renderElems (ind : Nat) : List Json → List Char
  | [] => []
  | x :: xs => ',' :: (newlineIndent ind ++ renderJson ind x ++ renderElems ind xs)
termination_by l => sizeOf l
decreasing_by
  all_goals simp only [Json.arr.sizeOf_spec, Json.obj.sizeOf_spec,
    List.cons.sizeOf_spec, Prod.mk.sizeOf_spec]; omega

/-- One `"key": value` member. -/
def renderField (ind : Nat) (p : String × Json) : List Char :=
  '"' :: (escapeList p.1.data ++ ['"'] ++ (':' :: ' ' :: renderJson ind p.2))
termination_by sizeOf p
decreasing_by
  obtain ⟨a, b⟩ := p
  simp only [Prod.mk.sizeOf_spec]
  omega

/-- The remaining object members. -/
def renderFields (ind : Nat) : List (String × Json) → List Char
  | [] => []
  | p :: ps => ',' :: (newlineIndent ind ++ renderField ind p ++ renderFields ind ps)
termination_by l => sizeOf l
decreasing_by
  all_goals simp only [Json.arr.sizeOf_spec, Json.obj.sizeOf_spec,
    List.cons.sizeOf_spec, Prod.mk.sizeOf_spec]; omega

end

/-- `json.dumps(v, indent=2)` / the text `json.dump(v, f, indent=2)` writes. -/
def dumps (j : Json) : String := String.mk (renderJson 0 j)

/-! ## Timestamps (`datetime.now().strftime("%Y%m%d_%H%M%S")`) -/

/-- A point in time as `datetime.now()` delivers it.  `datetime`
guarantees `1 ≤ year ≤ 9999`, `1 ≤ month ≤ 12`, `1 ≤ day ≤ 31`,
`hour < 24`, `minute < 60`, `second < 60`, `microsecond < 1000000`. -/
structure DateTime where
  year : Nat
  month : Nat
  day : Nat
  hour : Nat
  minute : Nat
  second : Nat
  microsecond : Nat
deriving Repr, DecidableEq

/-- The field ranges `datetime` guarantees. -/
def DateTime.Valid (t : DateTime) : Prop :=
  1 ≤ t.year ∧ t.year ≤ 9999 ∧ 1 ≤ t.month ∧ t.month ≤ 12 ∧ 1 ≤ t.day ∧ t.day ≤ 31 ∧
    t.hour < 24 ∧ t.minute < 60 ∧ t.second < 60 ∧ t.microsecond < 1000000

instance (t : DateTime) : Decidable t.Valid := by
  unfold DateTime.Valid; infer_instance

/-- Zero-pad decimal digits on the left to width `w` (`%02d`-style:
a minimum width). -/
def padDigits (w n : Nat) : List Char :=
  List.replicate (w - (natDigits n).length) '0' ++ natDigits n

/-- `t.strftime("%Y%m%d_%H%M%S")`. -/
def strftimeTimestamp (t : DateTime) : String :=
  String.mk (padDigits 4 t.year ++ padDigits 2 t.month ++ padDigits 2 t.day ++
    ['_'] ++ padDigits 2 t.hour ++ padDigits 2 t.minute ++ padDigits 2 t.second)

/-! ## Filesystem, console and network effects -/

/-- The filesystem as the program touches it: a set of directories that
exist and a map from paths to file contents (most recent write first;
`os.makedirs(..., exist_ok=True)` makes duplicate directory entries
harmless). -/
structure FS where
  dirs : List String
  files : List (String × String)
deriving Repr, DecidableEq

/-- `os.makedirs(p, exist_ok=True)`. -/
def FS.mkdirs (fs : FS) (p : String) : FS := ⟨p :: fs.dirs, fs.files⟩

/-- `open(p, 'w')` / `open(p, 'wb')` followed by writing `c`: creates or
truncates, so the new content shadows any previous one. -/
def FS.write (fs : FS) (p c : String) : FS := ⟨fs.dirs, (p, c) :: fs.files⟩

/-- The content currently stored at `p`. -/
def FS.read (fs : FS) (p : String) : Option String :=
  (fs.files.find? (fun q => q.1 = p)).map (fun q => q.2)

/-- Does directory `p` exist? -/
def FS.hasDir (fs : FS) (p : String) : Bool := fs.dirs.contains p

/-- `os.path.join` for the relative, slash-free components this program
builds. -/
def pathJoin (a b : String) : String := a ++ "/" ++ b

/-- Which call site of `session.get` issued a request (the three REST
endpoints the pipeline reads). -/
inductive ApiCall where
  | list : ApiCall
  | info (app : String) : ApiCall
  | download (app : String) (filename : String) : ApiCall
deriving Repr, DecidableEq

/-- Externally visible actions, in program order. -/
inductive Event where
  | printed (msg : String) : Event
  | httpPost (url : String) (formData : List (String × String)) : Event
  | httpGet (call : ApiCall) (url : String) (headers : List (String × String)) : Event
  | mkdir (path : String) : Event
  | fileWrite (path : String) (content : String) : Event
deriving Repr, DecidableEq

/-- Is an event an HTTP request (of either method)? -/
def Event.isHttp : Event → Bool
  | .httpPost _ _ => true
  | .httpGet _ _ _ => true
  | _ => false

/-- Is an event a detail (`get_application_info`) request? -/
def Event.isInfoCall : Event → Bool
  | .httpGet (.info _) _ _ => true
  | _ => false

/-- Is an event a download request? -/
def Event.isDownloadCall : Event → Bool
  | .httpGet (.download _ _) _ _ => true
  | _ => false

/-- If the event is an HTTP `GET`, does it carry exactly these headers?
(Non-request events pass vacuously.) -/
def Event.usesHeaders (hs : List (String × String)) : Event → Bool
  | .httpGet _ _ h => decide (h = hs)
  | _ => true

/-- If the event writes a file, does the path live inside this
directory? (Other events pass vacuously.) -/
def Event.writesUnder (dir : String) : Event → Bool
  | .fileWrite p _ => (dir ++ "/").data.isPrefixOf p.data
  | _ => true

/-- The filesystem only grows: every directory stays, every file keeps
existing (contents may be overwritten, nothing is removed). -/
def FS.le (fs fs' : FS) : Prop :=
  (∀ p, fs.hasDir p = true → fs'.hasDir p = true) ∧
  (∀ p, (fs.read p).isSome = true → (fs'.read p).isSome = true)

/-- What the wire answers to a streamed download `GET`:
either the request itself / `raise_for_status` fails before a body
exists, or the body streams `chunks` and then either ends cleanly
(`midError = none`) or dies mid-transfer (`midError = some msg`, a
`requests` exception raised from `iter_content`). -/
inductive StreamResult where
  | httpError (msg : String) : StreamResult
  | stream (chunks : List String) (midError : Option String) : StreamResult
deriving Repr, DecidableEq

/-- The network, as oracles per endpoint.  A `.error` answer stands for
any `requests.exceptions.RequestException` — transport failure,
`raise_for_status` on a non-2xx answer, or an unparseable JSON body
(`response.json()` raises a `RequestException` subclass). -/
structure NetOracle where
  authResponse : Except String Json
  listResponse : Except String Json
  infoResponse : String → Except String Json
  downloadResponse : String → String → StreamResult

/-! ## Configuration and initialisation -/

/-- The process environment (`os.getenv`). -/
def Env : Type := String → Option String

/-- Python's `str.lower()` (the configuration values it is applied to
are ASCII; per-character lowering models it there). -/
def pyLower (s : String) : String := String.mk (s.data.map Char.toLower)

/-- `not os.getenv(var)`: unset or empty counts as missing. -/
def envTruthy (env : Env) (k : String) : Bool :=
  match env k with
  | none => false
  | some s => s ≠ ""

/-- The four mandatory variables of `_load_config`. -/
def required_vars : List String :=
  ["ANYPOINT_CLIENT_ID", "ANYPOINT_CLIENT_SECRET", "ANYPOINT_ORG_ID", "ANYPOINT_ENV_ID"]

/-- `self.config` as `_load_config` stores it. -/
structure Config where
  client_id : String
  client_secret : String
  organization_id : String
  environment_id : String
deriving Repr, DecidableEq

/-- Everything `_load_config` assigns onto `self`. -/
structure LoadedConfig where
  enable_endpoint_logging : Bool
  control_plane : String
  config : Config
deriving Repr, DecidableEq

/-- The closed set of recognised control planes. -/
def valid_control_planes : List String := ["us", "eu1", "gov"]

/-- `_load_config`: require the four variables (unset or empty is
missing), read the logging toggle (default on), lower-case the selector
(default `us`) and reject it unless it is in the closed set, then store
the credential record.  Raises `KeyError` / `ValueError` on failure;
performs no I/O that the model tracks. -/
def _load_config (env : Env) : Except PyError LoadedConfig :=
  let missing_vars := required_vars.filter (fun v => !envTruthy env v)
  if missing_vars.isEmpty then
    let enable_endpoint_logging :=
      pyLower ((env "ENABLE_ENDPOINT_LOGGING").getD "True") == "true"
    let control_plane := pyLower ((env "ANYPOINT_CONTROL_PLANE").getD "us")
    if valid_control_planes.contains control_plane then
      .ok ⟨enable_endpoint_logging, control_plane,
        ⟨(env "ANYPOINT_CLIENT_ID").getD "", (env "ANYPOINT_CLIENT_SECRET").getD "",
         (env "ANYPOINT_ORG_ID").getD "", (env "ANYPOINT_ENV_ID").getD ""⟩⟩
    else
      .error (.valueError ("ANYPOINT_CONTROL_PLANE must be one of: " ++
        String.intercalate ", " valid_control_planes))
  else
    .error (.keyError ("Missing environment variables: " ++
      String.intercalate ", " missing_vars))

/-- The control-plane-to-domain table of `_setup_base_urls`. -/
def control_plane_domains : List (String × String) :=
  [("us", "anypoint.mulesoft.com"), ("eu1", "eu1.anypoint.mulesoft.com"),
   ("gov", "gov.anypoint.mulesoft.com")]

/-- `_setup_base_urls`: look the selector up in the table (plain `dict`
indexing, so an absent key would raise `KeyError`), derive the two URLs,
and log them when enabled. -/
def _setup_base_urls (lc : LoadedConfig) : Except PyError (String × String) × List Event :=
  match control_plane_domains.find? (fun p => p.1 = lc.control_plane) with
  | none => (.error (.keyError lc.control_plane), [])
  | some p =>
      let auth_url := "https://" ++ p.2 ++ "/accounts/api/v2/oauth2/token"
      let base_url := "https://" ++ p.2 ++ "/cloudhub/api"
      (.ok (auth_url, base_url),
        if lc.enable_endpoint_logging then
          [.printed ("\nUsing control plane: " ++ lc.control_plane),
           .printed ("Base URL: " ++ base_url)]
        else [])

/-- `_setup_session`: one `requests.post` to the token endpoint with the
client-credentials form; on any `RequestException` re-raise as a plain
`Exception`; on success take `response.json()["access_token"]` (a
missing key or non-dict body raises outside the `except` clause and
propagates) and install the authorization and tenant headers on the
shared session. -/
def _setup_session (lc : LoadedConfig) (auth_url : String) (o : NetOracle) :
    Except PyError (List (String × String)) × List Event :=
  let ev0 :=
    if lc.enable_endpoint_logging then
      [Event.printed ("\nCalling authentication endpoint: " ++ auth_url)]
    else []
  let auth_data := [("grant_type", "client_credentials"),
    ("client_id", lc.config.client_id), ("client_secret", lc.config.client_secret)]
  let evs := ev0 ++ [Event.httpPost auth_url auth_data]
  match o.authResponse with
  | .error m => (.error (.exc ("Error during authentication: " ++ m)), evs)
  | .ok body =>
      match body.index "access_token" with
      | .error e => (.error e, evs)
      | .ok tokenV =>
          (.ok [("Authorization", "Bearer " ++ pyStr tokenV),
                ("Content-Type", "application/json"),
                ("x-anypnt-env-id", lc.config.environment_id),
                ("x-anypnt-org-id", lc.config.organization_id)], evs)

/-- `_setup_download_dir`: derive the timestamped name and create the
directory. -/
def _setup_download_dir (t : DateTime) (fs : FS) : String × FS × List Event :=
  let dir := "downloads_" ++ strftimeTimestamp t
  (dir, fs.mkdirs dir, [Event.mkdir dir])

/-- The state `__init__` leaves on a successfully constructed object. -/
structure Downloader where
  enable_endpoint_logging : Bool
  control_plane : String
  config : Config
  auth_url : String
  base_url : String
  sessionHeaders : List (String × String)
  download_dir : String
deriving Repr, DecidableEq

/-- `MulesoftDownloader.__init__`: config, URLs, fresh session,
authentication, then the download directory — in that order; the first
raised exception aborts construction. -/
def init (env : Env) (o : NetOracle) (t : DateTime) (fs : FS) :
    Except PyError Downloader × FS × List Event :=
  match _load_config env with
  | .error e => (.error e, fs, [])
  | .ok lc =>
      match _setup_base_urls lc with
      | (.error e, ev1) => (.error e, fs, ev1)
      | (.ok (auth_url, base_url), ev1) =>
          match _setup_session lc auth_url o with
          | (.error e, ev2) => (.error e, fs, ev1 ++ ev2)
          | (.ok headers, ev2) =>
              let (dir, fs1, ev3) := _setup_download_dir t fs
              (.ok ⟨lc.enable_endpoint_logging, lc.control_plane, lc.config,
                    auth_url, base_url, headers, dir⟩,
               fs1, ev1 ++ ev2 ++ ev3)

/-! ## The REST calls -/

/-- `get_applications`: one `session.get` on the list endpoint (the
session's headers travel with it), logging the endpoint and the tenant
headers when enabled; any `RequestException` is re-raised as a plain
`Exception`. -/
def get_applications (d : Downloader) (o : NetOracle) : Except PyError Json × List Event :=
  let url := d.base_url ++ "/applications"
  let ev0 :=
    if d.enable_endpoint_logging then
      [Event.printed ("\nCalling applications list endpoint: " ++ url),
       Event.printed "Headers used:",
       Event.printed ("x-anypnt-env-id: " ++ d.config.environment_id),
       Event.printed ("x-anypnt-org-id: " ++ d.config.organization_id)]
    else []
  let evs := ev0 ++ [Event.httpGet .list url d.sessionHeaders]
  match o.listResponse with
  | .ok j => (.ok j, evs)
  | .error m => (.error (.exc ("Error retrieving applications: " ++ m)), evs)

/-- `get_application_info`: one `session.get` on the per-application
detail endpoint; any `RequestException` is re-raised as a plain
`Exception`. -/
def get_application_info (d : Downloader) (o : NetOracle) (app_name : String) :
    Except PyError Json × List Event :=
  let url := d.base_url ++ "/organizations/" ++ d.config.organization_id ++
    "/environments/" ++ d.config.environment_id ++ "/applications/" ++ app_name
  let ev0 :=
    if d.enable_endpoint_logging then
      [Event.printed ("\nCalling application info endpoint: " ++ url)]
    else []
  let evs := ev0 ++ [Event.httpGet (.info app_name) url d.sessionHeaders]
  match o.infoResponse app_name with
  | .ok j => (.ok j, evs)
  | .error m =>
      (.error (.exc ("Error retrieving information for " ++ app_name ++ ": " ++ m)), evs)

/-- `download_application`: create the per-application directory, then
stream the artifact to `<download_dir>/<app_name>/<filename>` in
8192-byte chunks.  A `RequestException` — before the body or in the
middle of it — is caught, logged, and turned into `None`; whatever was
already written stays on disk (the `with` block merely closes the
handle). -/
def download_application (d : Downloader) (o : NetOracle) (fs : FS)
    (app_name filename : String) : Option String × FS × List Event :=
  let url := d.base_url ++ "/organizations/" ++ d.config.organization_id ++
    "/environments/" ++ d.config.environment_id ++ "/applications/" ++ app_name ++
    "/download/" ++ filename
  let ev0 :=
    if d.enable_endpoint_logging then
      [Event.printed ("\nCalling application download endpoint: " ++ url)]
    else []
  let app_dir := pathJoin d.download_dir app_name
  let fs1 := fs.mkdirs app_dir
  let output_path := pathJoin app_dir filename
  let evs := ev0 ++ [Event.mkdir app_dir, Event.httpGet (.download app_name filename) url d.sessionHeaders]
  match o.downloadResponse app_name filename with
  | .httpError m =>
      (none, fs1,
       evs ++ [.printed ("Error downloading application " ++ app_name ++ ": " ++ m)])
  | .stream chunks none =>
      let content := String.join chunks
      (some output_path, fs1.write output_path content,
       evs ++ [.fileWrite output_path content])
  | .stream chunks (some m) =>
      let content := String.join chunks
      (none, fs1.write output_path content,
       evs ++ [.fileWrite output_path content,
               .printed ("Error downloading application " ++ app_name ++ ": " ++ m)])

/-! ## The batch loop (`process_all_applications`) -/

/-- The body of one pass of the `for index, app in enumerate(applications, 1)`
loop.  `.error e` is an exception escaping the iteration to the outer
handler: the only expression of the body outside the inner `try` is
`app.get('domain')`, so only its `AttributeError` can do that.
Everything raised inside the inner `try` is caught at the iteration
boundary (`except Exception`), printed, and the iteration merely ends.
`.ok (evs, fs1)` gives the iteration's events and the filesystem it
leaves behind. -/
def processStep (d : Downloader) (o : NetOracle) (total : Nat) (app : Json) (index : Nat)
    (fs : FS) : Except PyError (List Event × FS) :=
  match app.dictGet "domain" with
  | .error e => .error e
  | .ok nameV =>
      if !nameV.truthy then .ok ([], fs)
      else
        let app_name := pyStr nameV
        let evHead := [Event.printed ("\nProcessing application " ++ toString index ++
          " of " ++ toString total ++ ": " ++ app_name)]
        match get_application_info d o app_name with
        | (.error e, evI) =>
            .ok (evHead ++ evI ++
              [.printed ("Error processing " ++ app_name ++ ": " ++ e.msg)], fs)
        | (.ok app_info, evI) =>
            match app_info.dictGet "filename" with
            | .error e =>
                .ok (evHead ++ evI ++
                  [.printed ("Error processing " ++ app_name ++ ": " ++ e.msg)], fs)
            | .ok fileV =>
                if !fileV.truthy then
                  .ok (evHead ++ evI ++
                    [.printed ("Filename not found for " ++ app_name ++ ", skipping"),
                     .printed ("Received JSON: " ++ dumps app_info)], fs)
                else
                  let filename := pyStr fileV
                  let (res, fs1, evD) := download_application d o fs app_name filename
                  let evRes :=
                    match res with
                    | some output_path => [Event.printed ("Download completed: " ++ output_path)]
                    | none => [Event.printed ("Download failed for " ++ app_name)]
                  .ok (evHead ++ evI ++
                    [.printed ("Downloading file: " ++ filename)] ++ evD ++ evRes, fs1)

/-- The whole loop: run the body per record; an escaping exception ends
the loop (the events of the aborting iteration are the step's own
prints, none here), a caught one merely moves on. -/
def processLoop (d : Downloader) (o : NetOracle) (total : Nat) :
    List Json → Nat → FS → FS × List Event × Option PyError
  | [], _, fs => (fs, [], none)
  | app :: rest, index, fs =>
      match processStep d o total app index fs with
      | .error e => (fs, [], some e)
      | .ok (evs, fs1) =>
          let r := processLoop d o total rest (index + 1) fs1
          (r.1, evs ++ r.2.1, r.2.2)

/-- `process_all_applications`: list once (fatal-to-the-batch on
failure, caught by the outer handler), snapshot the raw list response
as pretty-printed JSON into the run directory, then run the loop; an
exception escaping the loop is caught by the same outer handler and
merely printed. -/
def process_all_applications (d : Downloader) (o : NetOracle) (t : DateTime) (fs : FS) :
    FS × List Event :=
  let ev0 := [Event.printed "Starting applications download process..."]
  match get_applications d o with
  | (.error e, evL) =>
      (fs, ev0 ++ evL ++ [.printed ("Error during process: " ++ e.msg)])
  | (.ok applications, evL) =>
      match pyLen applications with
      | .error e => (fs, ev0 ++ evL ++ [.printed ("Error during process: " ++ e.msg)])
      | .ok total_apps =>
          let evN := [Event.printed ("\nFound " ++ toString total_apps ++
            " applications to process")]
          let timestamp := strftimeTimestamp t
          let json_filename := "applications_list_" ++ timestamp ++ ".json"
          let json_path := pathJoin d.download_dir json_filename
          let content := dumps applications
          let fs1 := fs.write json_path content
          let evW := [Event.fileWrite json_path content,
            Event.printed ("Saved applications JSON to: " ++ json_path)]
          match pyIter applications with
          | .error e =>
              (fs1, ev0 ++ evL ++ evN ++ evW ++ [.printed ("Error during process: " ++ e.msg)])
          | .ok elems =>
              let (fs2, ev2, ab) := processLoop d o total_apps elems 1 fs1
              match ab with
              | none => (fs2, ev0 ++ evL ++ evN ++ evW ++ ev2)
              | some e =>
                  (fs2, ev0 ++ evL ++ evN ++ evW ++ ev2 ++
                    [.printed ("Error during process: " ++ e.msg)])

/-- `main()`: construct, process, and report; any exception from either
step is caught and printed. -/
def main (env : Env) (o : NetOracle) (t1 t2 : DateTime) (fs : FS) : FS × List Event :=
  match init env o t1 fs with
  | (.error e, fs1, ev1) => (fs1, ev1 ++ [.printed ("Fatal error: " ++ e.msg)])
  | (.ok d, fs1, ev1) =>
      let (fs2, ev2) := process_all_applications d o t2 fs1
      (fs2, ev1 ++ ev2 ++ [.printed "\nProcess completed successfully!"])

/-! ## The `json` module: parsing (`json.loads` / `json.load`)

A recursive-descent reader of the text the serialiser above produces,
following CPython's `json.loads` in default (strict) mode: JSON
whitespace is skipped before every token, strings understand the
two-character escapes and `\uXXXX` with surrogate pairs, objects are
built by repeated dictionary insertion (so a duplicate key keeps its
first position but the last value).  Restrictions inherited from the
value model: numbers are read as integers, and a lone surrogate escape
(which CPython would keep as an unpaired surrogate code unit, a thing a
`Char` cannot hold) is rejected.  Recursion is fuelled; `parseJson`
supplies fuel ample for its input. -/

/-- Value of one hexadecimal digit, either case. -/
def hexVal (c : Char) : Option Nat :=
  if '0' ≤ c ∧ c ≤ '9' then some (c.toNat - 48)
  else if 'a' ≤ c ∧ c ≤ 'f' then some (c.toNat - 87)
  else if 'A' ≤ c ∧ c ≤ 'F' then some (c.toNat - 55)
  else none

/-- The two-character escapes of the JSON grammar. -/
def escMap (e : Char) : Option Char :=
  if e = '"' then some '"'
  else if e = '\\' then some '\\'
  else if e = '/' then some '/'
  else if e = 'b' then some '\x08'
  else if e = 'f' then some '\x0c'
  else if e = 'n' then some '\n'
  else if e = 'r' then some '\r'
  else if e = 't' then some '\t'
  else none

/-- Decode what follows a backslash: a two-character escape or a
`\\uXXXX` unit (with the surrogate-pair combination). -/
def parseEsc : List Char → Option (Char × List Char)
  | [] => none
  | e :: cs2 =>
      if e = 'u' then
        match cs2 with
        | a :: b :: e3 :: e4 :: rest =>
            match hexVal a, hexVal b, hexVal e3, hexVal e4 with
            | some ha, some hb, some hc, some hd =>
                let n := 4096 * ha + 256 * hb + 16 * hc + hd
                if 0xD800 ≤ n ∧ n < 0xDC00 then
                  match rest with
                  | r1 :: r2 :: a2 :: b2 :: c2 :: d2 :: rest2 =>
                      if r1 = '\\' ∧ r2 = 'u' then
                        match hexVal a2, hexVal b2, hexVal c2, hexVal d2 with
                        | some ha2, some hb2, some hc2, some hd2 =>
                            let m := 4096 * ha2 + 256 * hb2 + 16 * hc2 + hd2
                            if 0xDC00 ≤ m ∧ m < 0xE000 then
                              some (Char.ofNat
                                (0x10000 + (n - 0xD800) * 0x400 + (m - 0xDC00)), rest2)
                            else none
                        | _, _, _, _ => none
                      else none
                  | _ => none
                else if 0xDC00 ≤ n ∧ n < 0xE000 then none
                else some (Char.ofNat n, rest)
            | _, _, _, _ => none
        | _ => none
      else
        match escMap e with
        | some c2 => some (c2, cs2)
        | none => none

/-- Read a string body up to (and past) the closing quote. -/
def parseStringBody : List Char → Option (List Char × List Char)
  | [] => none
  | c :: cs =>
      if c = '"' then some ([], cs)
      else if c = '\\' then
        match hesc : parseEsc cs with
        | some (ch, rest) =>
            match parseStringBody rest with
            | some (s, r) => some (ch :: s, r)
            | none => none
        | none => none
      else if c.toNat < 0x20 then none
      else
        match parseStringBody cs with
        | some (s, r) => some (c :: s, r)
        | none => none
termination_by cs => cs.length
decreasing_by
  · have hlen : rest.length < cs.length := by
      cases cs with
      | nil => simp [parseEsc] at hesc
      | cons e cs2 =>
          simp only [parseEsc] at hesc
          repeat' split at hesc
          all_goals simp_all
          all_goals omega
    simp only [List.length_cons]
    omega
  · simp only [List.length_cons]
    omega
/-- JSON whitespace. -/
def isWsChar (c : Char) : Bool := c = ' ' ∨ c = '\t' ∨ c = '\n' ∨ c = '\r'

/-- Drop leading JSON whitespace. -/
def skipWs : List Char → List Char
  | [] => []
  | c :: cs => if isWsChar c then skipWs cs else c :: cs

/-- Numeric value of a digit run (most significant first). -/
def digitsVal (ds : List Char) : Nat :=
  ds.foldl (fun a c => 10 * a + (c.toNat - 48)) 0

/-- Read a run of decimal digits. -/
def parseNatNum (cs : List Char) : Option (Nat × List Char) :=
  let ds := cs.takeWhile (fun c => c.isDigit)
  if ds.isEmpty then none else some (digitsVal ds, cs.drop ds.length)

/-- `d[k] = v` on a Python dict held as an ordered association list: a
present key keeps its position and takes the new value, a fresh key is
appended. -/
def dictInsert (d : List (String × Json)) (k : String) (v : Json) : List (String × Json) :=
  if d.any (fun p => p.1 = k) then d.map (fun p => if p.1 = k then (k, v) else p)
  else d ++ [(k, v)]

/-- Build the dict from the members in source order. -/
def mkDict (ms : List (String × Json)) : List (String × Json) :=
  ms.foldl (fun d m => dictInsert d m.1 m.2) []

mutual

/-- Read one JSON value (whitespace first). -/
def parseVal : Nat → List Char → Option (Json × List Char)
  | 0, _ => none
  | fuel + 1, cs =>
      match skipWs cs with
      | [] => none
      | c :: cs2 =>
          if c = 'n' then
            match cs2 with
            | c1 :: c2 :: c3 :: rest =>
                if c1 = 'u' ∧ c2 = 'l' ∧ c3 = 'l' then some (.null, rest) else none
            | _ => none
          else if c = 't' then
            match cs2 with
            | c1 :: c2 :: c3 :: rest =>
                if c1 = 'r' ∧ c2 = 'u' ∧ c3 = 'e' then some (.bool true, rest) else none
            | _ => none
          else if c = 'f' then
            match cs2 with
            | c1 :: c2 :: c3 :: c4 :: rest =>
                if c1 = 'a' ∧ c2 = 'l' ∧ c3 = 's' ∧ c4 = 'e' then some (.bool false, rest)
                else none
            | _ => none
          else if c = '"' then
            match parseStringBody cs2 with
            | some (s, rest) => some (.str (String.mk s), rest)
            | none => none
          else if c = '-' then
            match parseNatNum cs2 with
            | some (n, rest) => some (.num (-(n : Int)), rest)
            | none => none
          else if c.isDigit then
            match parseNatNum (c :: cs2) with
            | some (n, rest) => some (.num (n : Int), rest)
            | none => none
          else if c = '[' then
            match parseArrItems fuel cs2 with
            | some (js, rest) => some (.arr js, rest)
            | none => none
          else if c = '\x7b' then
            match parseObjItems fuel cs2 with
            | some (ms, rest) => some (.obj (mkDict ms), rest)
            | none => none
          else none

/-- Directly after `[`: the empty array or its first item. -/
def parseArrItems : Nat → List Char → Option (List Json × List Char)
  | 0, _ => none
  | fuel + 1, cs =>
      match skipWs cs with
      | [] => none
      | c :: rest =>
          if c = ']' then some ([], rest)
          else
            match parseVal fuel cs with
            | some (j, rest2) =>
                match parseArrRest fuel rest2 with
                | some (js, rest3) => some (j :: js, rest3)
                | none => none
            | none => none

/-- After an array item: close or a comma and the next item. -/
def parseArrRest : Nat → List Char → Option (List Json × List Char)
  | 0, _ => none
  | fuel + 1, cs =>
      match skipWs cs with
      | [] => none
      | c :: rest =>
          if c = ']' then some ([], rest)
          else if c = ',' then
            match parseVal fuel rest with
            | some (j, rest2) =>
                match parseArrRest fuel rest2 with
                | some (js, rest3) => some (j :: js, rest3)
                | none => none
            | none => none
          else none

/-- Directly after `{`: the empty object or its first member. -/
def parseObjItems : Nat → List Char → Option (List (String × Json) × List Char)
  | 0, _ => none
  | fuel + 1, cs =>
      match skipWs cs with
      | [] => none
      | c :: rest =>
          if c = '\x7d' then some ([], rest)
          else if c = '"' then
            match parseMember fuel rest with
            | some (m, rest2) =>
                match parseObjRest fuel rest2 with
                | some (ms, rest3) => some (m :: ms, rest3)
                | none => none
            | none => none
          else none

/-- After the opening quote of a key: the key, the colon, the value. -/
def parseMember : Nat → List Char → Option ((String × Json) × List Char)
  | 0, _ => none
  | fuel + 1, cs =>
      match parseStringBody cs with
      | some (k, rest) =>
          match skipWs rest with
          | [] => none
          | c :: rest2 =>
              if c = ':' then
                match parseVal fuel rest2 with
                | some (v, rest3) => some ((String.mk k, v), rest3)
                | none => none
              else none
      | none => none

/-- After an object member: close or a comma and the next member. -/
def parseObjRest : Nat → List Char → Option (List (String × Json) × List Char)
  | 0, _ => none
  | fuel + 1, cs =>
      match skipWs cs with
      | [] => none
      | c :: rest =>
          if c = '\x7d' then some ([], rest)
          else if c = ',' then
            match skipWs rest with
            | [] => none
            | c2 :: rest2 =>
                if c2 = '"' then
                  match parseMember fuel rest2 with
                  | some (m, rest3) =>
                      match parseObjRest fuel rest3 with
                      | some (ms, rest4) => some (m :: ms, rest4)
                      | none => none
                  | none => none
                else none
          else none

end

mutual

/-- Fuel sufficient to read one rendered value (one unit per
`parse*` call alive on the stack). -/
def needVal : Json → Nat
  | .null => 1
  | .bool _ => 1
  | .num _ => 1
  | .str _ => 1
  | .arr l => 1 + needList l
  | .obj l => 1 + needFields l
termination_by j => sizeOf j
decreasing_by
  all_goals simp only [Json.arr.sizeOf_spec, Json.obj.sizeOf_spec]; omega

/-- Fuel for an item chain (`parseArrItems` / `parseArrRest`). -/
def needList : List Json → Nat
  | [] => 1
  | x :: xs => 1 + max (needVal x) (needList xs)
termination_by l => sizeOf l
decreasing_by
  all_goals simp only [List.cons.sizeOf_spec]; omega

/-- Fuel for a member chain (`parseObjItems` / `parseObjRest` /
`parseMember`). -/
def needFields : List (String × Json) → Nat
  | [] => 1
  | p :: ps => 1 + max (1 + needVal p.2) (needFields ps)
termination_by l => sizeOf l
decreasing_by
  all_goals simp only [List.cons.sizeOf_spec, Prod.mk.sizeOf_spec]
  · obtain ⟨a, b⟩ := p
    simp only [Prod.mk.sizeOf_spec]
    omega
  · omega

end

/-- `json.loads`: parse the whole text, requiring only trailing
whitespace after the value. -/
def parseJson (s : String) : Option Json :=
  match parseVal (2 * s.data.length + 2) s.data with
  | some (j, rest) => if (skipWs rest).isEmpty then some j else none
  | none => none

/-- No key occurs twice. -/
def keysNodupB : List (String × Json) → Bool
  | [] => true
  | p :: ps => !(ps.any (fun q => q.1 == p.1)) && keysNodupB ps

/-- "The next character (if any) is not a digit" — what a number token
needs after it to end where the render ended it. -/
def NumDelim (cs : List Char) : Prop :=
  ∀ c, cs.head? = some c → c.isDigit = false

mutual

/-- Well-formedness of a value that came out of a JSON parse: no dict
carries a duplicate key (a Python dict cannot). -/
def wfJson : Json → Bool
  | .null => true
  | .bool _ => true
  | .num _ => true
  | .str _ => true
  | .arr l => wfList l
  | .obj l => keysNodupB l && wfFields l
termination_by j => sizeOf j
decreasing_by
  all_goals simp only [Json.arr.sizeOf_spec, Json.obj.sizeOf_spec]; omega

/-- `wfJson` on every element. -/
def wfList : List Json → Bool
  | [] => true
  | x :: xs => wfJson x && wfList xs
termination_by l => sizeOf l
decreasing_by
  all_goals simp only [List.cons.sizeOf_spec]; omega

/-- `wfJson` on every member value. -/
def wfFields : List (String × Json) → Bool
  | [] => true
  | p :: ps => wfJson p.2 && wfFields ps
termination_by l => sizeOf l
decreasing_by
  all_goals simp only [List.cons.sizeOf_spec, Prod.mk.sizeOf_spec]
  · obtain ⟨a, b⟩ := p
    simp only [Prod.mk.sizeOf_spec]
    omega
  · omega

end

/-! ## Derived predicates the claims speak about -/

/-- Did the streamed transfer fail (so `download_application` returns
`None`)? -/
def StreamResult.failed : StreamResult → Prop
  | .httpError _ => True
  | .stream _ (some _) => True
  | .stream _ none => False

/-- "Processing record K raises an error": the detail fetch fails, or it
succeeds, yields a usable filename, and the download then fails. -/
def recordFails (o : NetOracle) (name : String) : Prop :=
  (∃ m, o.infoResponse name = .error m) ∨
  (∃ body fv, o.infoResponse name = .ok body ∧ body.dictGet "filename" = .ok fv ∧
    fv.truthy = true ∧ (o.downloadResponse name (pyStr fv)).failed)

/-- Does a summary record carry a usable identifier (`app.get('domain')`
truthy)? -/
def hasTruthyDomain (a : Json) : Bool :=
  match a.dictGet "domain" with
  | .ok v => v.truthy
  | .error _ => false

/-- Is the value a dict (a "record")? -/
def Json.isObjB : Json → Bool
  | .obj _ => true
  | _ => false

/-! ## Concrete fixtures for the witness and counterexample theorems -/

/-- An environment with the four credentials present. -/
def envOk : Env := fun k =>
  if k = "ANYPOINT_CLIENT_ID" then some "my-id"
  else if k = "ANYPOINT_CLIENT_SECRET" then some "my-secret"
  else if k = "ANYPOINT_ORG_ID" then some "org-1"
  else if k = "ANYPOINT_ENV_ID" then some "env-1"
  else none

/-- Same, but with an unrecognised control-plane selector. -/
def envBadPlane : Env := fun k =>
  if k = "ANYPOINT_CONTROL_PLANE" then some "mars" else envOk k

/-- A start time. -/
def t1fix : DateTime := ⟨2024, 3, 7, 9, 5, 30, 0⟩

/-- A later start time (next second). -/
def t2fix : DateTime := ⟨2024, 3, 7, 9, 5, 31, 0⟩

/-- An empty filesystem. -/
def fs0 : FS := ⟨[], []⟩

/-- A sample list response: one record with a domain, one without. -/
def appsFix : Json :=
  Json.arr [Json.obj [("domain", Json.str "app1")], Json.obj [("id", Json.num 7)]]

/-- A network where authentication and listing succeed, the detail call
answers with a filename, and every download dies mid-stream. -/
def oracleFix : NetOracle :=
  { authResponse := .ok (Json.obj [("access_token", Json.str "tok-123")])
    listResponse := .ok appsFix
    infoResponse := fun _ => .ok (Json.obj [("filename", Json.str "a.jar")])
    downloadResponse := fun _ _ => .stream ["bytes1", "bytes2"] (some "connection reset") }

/-- A network where the detail call itself fails. -/
def oracleInfoFails : NetOracle :=
  { oracleFix with infoResponse := fun _ => .error "boom" }

/-- A network whose list response holds a non-record element between
two records. -/
def oracleBadElem : NetOracle :=
  { oracleFix with listResponse := .ok (Json.arr
      [Json.obj [("domain", Json.str "app1")], Json.str "oops",
       Json.obj [("domain", Json.str "app2")]]) }

/-- The downloader object `init envOk oracleFix t1fix fs0` constructs. -/
def dFix : Downloader :=
  { enable_endpoint_logging := true
    control_plane := "us"
    config := ⟨"my-id", "my-secret", "org-1", "env-1"⟩
    auth_url := "https://anypoint.mulesoft.com/accounts/api/v2/oauth2/token"
    base_url := "https://anypoint.mulesoft.com/cloudhub/api"
    sessionHeaders := [("Authorization", "Bearer tok-123"), ("Content-Type", "application/json"),
      ("x-anypnt-env-id", "env-1"), ("x-anypnt-org-id", "org-1")]
    download_dir := "downloads_" ++ strftimeTimestamp t1fix }

/-- The downloader of a second run, started one second later. -/
def dFix2 : Downloader :=
  { dFix with download_dir := "downloads_" ++ strftimeTimestamp t2fix }

/-! # Theorems -/

/-- **C3.** For every configuration whose control-plane selector (the
value `_load_config` stores, i.e. the environment value lower-cased,
defaulting to `us`) is not one of the fixed set `{us, eu1, gov}`,
initialization fails with a raised error and the run performs no HTTP
call at all: the selector is validated in `_load_config`, which runs
before `_setup_session`'s authentication POST. -/
theorem c3_invalid_selector_fails_before_http (env : Env) (o : NetOracle) (t : DateTime)
    (fs : FS)
    (hcp : valid_control_planes.contains
      (pyLower ((env "ANYPOINT_CONTROL_PLANE").getD "us")) = false) :
    (∃ e, (init env o t fs).1 = .error e) ∧
      ∀ ev ∈ (init env o t fs).2.2, ev.isHttp = false := by
  have hcp' : pyLower ((env "ANYPOINT_CONTROL_PLANE").getD "us") ∉ valid_control_planes := by
    simpa using hcp
  unfold init _load_config
  by_cases hm : (required_vars.filter (fun v => !envTruthy env v)).isEmpty <;>
    simp [hm, hcp']

/-- Witness for C3 at a concrete configuration (`mars` selector). -/
theorem c3_invalid_selector_fails_before_http_witness :
    valid_control_planes.contains
      (pyLower ((envBadPlane "ANYPOINT_CONTROL_PLANE").getD "us")) = false ∧
    ((∃ e, (init envBadPlane oracleFix t1fix fs0).1 = .error e) ∧
      ∀ ev ∈ (init envBadPlane oracleFix t1fix fs0).2.2, ev.isHttp = false) :=
  ⟨by decide, c3_invalid_selector_fails_before_http envBadPlane oracleFix t1fix fs0 (by decide)⟩

/-- **C9.** `download_application` is not atomic on error: when the
streamed transfer dies after delivering some chunks, the function
returns `None`, yet the partially written file (holding exactly the
chunks delivered before the failure) and the per-application directory
created before the request both remain in the final filesystem state —
the code has no cleanup path (the model's filesystem offers no removal
operation and the function never shrinks it). -/
theorem c9_partial_download_remains (d : Downloader) (o : NetOracle) (fs : FS)
    (app_name filename : String) (chunks : List String) (m : String)
    (hstream : o.downloadResponse app_name filename = .stream chunks (some m))
    (hchunks : chunks ≠ []) :
    (download_application d o fs app_name filename).1 = none ∧
    (download_application d o fs app_name filename).2.1.read
        (pathJoin (pathJoin d.download_dir app_name) filename) = some (String.join chunks) ∧
    (download_application d o fs app_name filename).2.1.hasDir
        (pathJoin d.download_dir app_name) = true := by
  unfold download_application
  rw [hstream]
  simp [FS.read, FS.write, FS.mkdirs, FS.hasDir, List.find?]

/-- Witness for C9: a transfer that dies after two chunks. -/
theorem c9_partial_download_remains_witness :
    oracleFix.downloadResponse "app1" "a.jar" =
      .stream ["bytes1", "bytes2"] (some "connection reset") ∧
    (["bytes1", "bytes2"] : List String) ≠ [] ∧
    ((download_application dFix oracleFix fs0 "app1" "a.jar").1 = none ∧
     (download_application dFix oracleFix fs0 "app1" "a.jar").2.1.read
        (pathJoin (pathJoin dFix.download_dir "app1") "a.jar") =
          some (String.join ["bytes1", "bytes2"]) ∧
     (download_application dFix oracleFix fs0 "app1" "a.jar").2.1.hasDir
        (pathJoin dFix.download_dir "app1") = true) :=
  ⟨rfl, by simp,
    c9_partial_download_remains dFix oracleFix fs0 "app1" "a.jar" _ _ rfl (by simp)⟩

/-! ## Loop structure lemmas -/

/-- As soon as `app.get('domain')` answers, the iteration cannot escape:
every exception past that point is raised inside the inner `try` and
caught at the iteration boundary. -/
theorem processStep_isOk_of_domain (d : Downloader) (o : NetOracle) (total : Nat)
    (app : Json) (index : Nat) (fs : FS) (v : Json)
    (hdom : app.dictGet "domain" = .ok v) :
    (processStep d o total app index fs).isOk = true := by
  unfold processStep
  rw [hdom]
  cases htr : v.truthy with
  | false => simp [htr, Except.isOk, Except.toBool]
  | true =>
      rcases hgi : get_application_info d o (pyStr v) with ⟨res, evI⟩
      cases res with
      | error e => simp [htr, hgi, Except.isOk, Except.toBool]
      | ok app_info =>
          cases hfn : app_info.dictGet "filename" with
          | error e => simp [htr, hgi, hfn, Except.isOk, Except.toBool]
          | ok fileV =>
              cases hfv : fileV.truthy with
              | false => simp [htr, hgi, hfn, hfv, Except.isOk, Except.toBool]
              | true => simp [htr, hgi, hfn, hfv, Except.isOk, Except.toBool]

/-- Equation form of `processStep_isOk_of_domain`. -/
theorem processStep_ok_of_domain (d : Downloader) (o : NetOracle) (total : Nat)
    (app : Json) (index : Nat) (fs : FS) (v : Json)
    (hdom : app.dictGet "domain" = .ok v) :
    ∃ evs fs1, processStep d o total app index fs = .ok (evs, fs1) := by
  have h := processStep_isOk_of_domain d o total app index fs v hdom
  cases hstep : processStep d o total app index fs with
  | error e => rw [hstep] at h; simp [Except.isOk, Except.toBool] at h
  | ok p =>
      obtain ⟨evs, fs1⟩ := p
      exact ⟨evs, fs1, rfl⟩

/-- A non-escaping iteration makes the loop the iteration's events
followed by the loop on the remaining records. -/
theorem processLoop_cons_ok (d : Downloader) (o : NetOracle) (total : Nat)
    (app : Json) (rest : List Json) (index : Nat) (fs : FS) (evs : List Event) (fs1 : FS)
    (hstep : processStep d o total app index fs = .ok (evs, fs1)) :
    processLoop d o total (app :: rest) index fs =
      ((processLoop d o total rest (index + 1) fs1).1,
       evs ++ (processLoop d o total rest (index + 1) fs1).2.1,
       (processLoop d o total rest (index + 1) fs1).2.2) := by
  simp [processLoop, hstep]

/-- An escaping iteration ends the loop on the spot. -/
theorem processLoop_cons_error (d : Downloader) (o : NetOracle) (total : Nat)
    (app : Json) (rest : List Json) (index : Nat) (fs : FS) (e : PyError)
    (hstep : processStep d o total app index fs = .error e) :
    processLoop d o total (app :: rest) index fs = (fs, [], some e) := by
  simp [processLoop, hstep]

/-- **C1.** For every list of application records, if processing record
K raises an error — the detail fetch fails, or the download fails — the
records after K are still processed: the failure is caught at the
iteration boundary of `process_all_applications`' loop, and the loop
state at record K equals that iteration's events followed by the loop
run over the remaining records (from some intermediate filesystem). -/
theorem c1_failure_isolated_to_iteration (d : Downloader) (o : NetOracle) (total : Nat)
    (app : Json) (rest : List Json) (index : Nat) (fs : FS) (v : Json)
    (hdom : app.dictGet "domain" = .ok v) (htr : v.truthy = true)
    (hfail : recordFails o (pyStr v)) :
    ∃ evK fsK, processLoop d o total (app :: rest) index fs =
      ((processLoop d o total rest (index + 1) fsK).1,
       evK ++ (processLoop d o total rest (index + 1) fsK).2.1,
       (processLoop d o total rest (index + 1) fsK).2.2) := by
  obtain ⟨evs, fs1, hstep⟩ := processStep_ok_of_domain d o total app index fs v hdom
  exact ⟨evs, fs1, processLoop_cons_ok d o total app rest index fs evs fs1 hstep⟩

/-- Witness for C1: the detail call for the first record fails, the
second record is still processed. -/
theorem c1_failure_isolated_to_iteration_witness :
    (Json.obj [("domain", Json.str "app1")]).dictGet "domain" = .ok (Json.str "app1") ∧
    (Json.str "app1").truthy = true ∧
    recordFails oracleInfoFails (pyStr (Json.str "app1")) ∧
    (∃ evK fsK,
      processLoop dFix oracleInfoFails 2
          [Json.obj [("domain", Json.str "app1")], Json.obj [("domain", Json.str "app2")]] 1 fs0 =
        ((processLoop dFix oracleInfoFails 2 [Json.obj [("domain", Json.str "app2")]] (1 + 1) fsK).1,
         evK ++ (processLoop dFix oracleInfoFails 2 [Json.obj [("domain", Json.str "app2")]] (1 + 1) fsK).2.1,
         (processLoop dFix oracleInfoFails 2 [Json.obj [("domain", Json.str "app2")]] (1 + 1) fsK).2.2)) :=
  ⟨rfl, rfl, Or.inl ⟨"boom", rfl⟩,
    c1_failure_isolated_to_iteration dFix oracleInfoFails 2
      (Json.obj [("domain", Json.str "app1")]) [Json.obj [("domain", Json.str "app2")]] 1 fs0
      (Json.str "app1") rfl rfl (Or.inl ⟨"boom", rfl⟩)⟩

/-- **C5.** For every application whose detail response is a record that
lacks a usable filename value, no download call is attempted for that
application — the iteration's events hold no download request (and the
filesystem is untouched) — and the batch continues to the next record:
the loop state equals the skipped iteration's log messages followed by
the loop over the remaining records. -/
theorem c5_missing_filename_skips_download (d : Downloader) (o : NetOracle) (total : Nat)
    (app : Json) (rest : List Json) (index : Nat) (fs : FS) (v body fv : Json)
    (hdom : app.dictGet "domain" = .ok v) (htr : v.truthy = true)
    (hinfo : o.infoResponse (pyStr v) = .ok body)
    (hfn : body.dictGet "filename" = .ok fv) (hfv : fv.truthy = false) :
    ∃ evK, (∀ e ∈ evK, e.isDownloadCall = false) ∧
      processLoop d o total (app :: rest) index fs =
        ((processLoop d o total rest (index + 1) fs).1,
         evK ++ (processLoop d o total rest (index + 1) fs).2.1,
         (processLoop d o total rest (index + 1) fs).2.2) := by
  have hgi : get_application_info d o (pyStr v) =
      (.ok body,
        (if d.enable_endpoint_logging then
          [Event.printed ("\nCalling application info endpoint: " ++
            (d.base_url ++ "/organizations/" ++ d.config.organization_id ++
              "/environments/" ++ d.config.environment_id ++ "/applications/" ++ pyStr v))]
         else []) ++
        [Event.httpGet (.info (pyStr v))
          (d.base_url ++ "/organizations/" ++ d.config.organization_id ++
            "/environments/" ++ d.config.environment_id ++ "/applications/" ++ pyStr v)
          d.sessionHeaders]) := by
    unfold get_application_info
    rw [hinfo]
  have hstep : processStep d o total app index fs =
      .ok ([Event.printed ("\nProcessing application " ++ toString index ++ " of " ++
              toString total ++ ": " ++ pyStr v)] ++
           ((if d.enable_endpoint_logging then
              [Event.printed ("\nCalling application info endpoint: " ++
                (d.base_url ++ "/organizations/" ++ d.config.organization_id ++
                  "/environments/" ++ d.config.environment_id ++ "/applications/" ++ pyStr v))]
             else []) ++
            [Event.httpGet (.info (pyStr v))
              (d.base_url ++ "/organizations/" ++ d.config.organization_id ++
                "/environments/" ++ d.config.environment_id ++ "/applications/" ++ pyStr v)
              d.sessionHeaders]) ++
           [Event.printed ("Filename not found for " ++ pyStr v ++ ", skipping"),
            Event.printed ("Received JSON: " ++ dumps body)], fs) := by
    unfold processStep
    rw [hdom]
    simp [htr, hgi, hfn, hfv]
  refine ⟨_, ?_, processLoop_cons_ok d o total app rest index fs _ fs hstep⟩
  intro e he
  by_cases hlog : d.enable_endpoint_logging <;>
    simp [hlog, List.mem_append, List.mem_cons] at he <;>
    rcases he with rfl | rfl | rfl | rfl | rfl <;> rfl

/-- Witness for C5: a detail record whose `filename` is absent
(`get` answers `None`). -/
theorem c5_missing_filename_skips_download_witness :
    (Json.obj [("domain", Json.str "app1")]).dictGet "domain" = .ok (Json.str "app1") ∧
    (Json.str "app1").truthy = true ∧
    ({ oracleFix with infoResponse := fun _ => .ok (Json.obj [("status", Json.str "STARTED")])
       : NetOracle }).infoResponse (pyStr (Json.str "app1")) =
        .ok (Json.obj [("status", Json.str "STARTED")]) ∧
    (Json.obj [("status", Json.str "STARTED")]).dictGet "filename" = .ok Json.null ∧
    Json.null.truthy = false ∧
    (∃ evK, (∀ e ∈ evK, e.isDownloadCall = false) ∧
      processLoop dFix
          { oracleFix with infoResponse := fun _ => .ok (Json.obj [("status", Json.str "STARTED")]) }
          1 [Json.obj [("domain", Json.str "app1")]] 1 fs0 =
        ((processLoop dFix
            { oracleFix with infoResponse := fun _ => .ok (Json.obj [("status", Json.str "STARTED")]) }
            1 [] (1 + 1) fs0).1,
         evK ++ (processLoop dFix
            { oracleFix with infoResponse := fun _ => .ok (Json.obj [("status", Json.str "STARTED")]) }
            1 [] (1 + 1) fs0).2.1,
         (processLoop dFix
            { oracleFix with infoResponse := fun _ => .ok (Json.obj [("status", Json.str "STARTED")]) }
            1 [] (1 + 1) fs0).2.2)) :=
  ⟨rfl, rfl, rfl, rfl, rfl,
    c5_missing_filename_skips_download dFix
      { oracleFix with infoResponse := fun _ => .ok (Json.obj [("status", Json.str "STARTED")]) }
      1 (Json.obj [("domain", Json.str "app1")]) [] 1 fs0
      (Json.str "app1") (Json.obj [("status", Json.str "STARTED")]) Json.null
      rfl rfl rfl rfl rfl⟩

/-- Splitting the loop at a list boundary: an abort in the first part
ends everything; otherwise the second part runs from where the first
left off. -/
theorem processLoop_append (d : Downloader) (o : NetOracle) (total : Nat)
    (l1 l2 : List Json) (index : Nat) (fs : FS) :
    processLoop d o total (l1 ++ l2) index fs =
      match processLoop d o total l1 index fs with
      | (fs1, ev1, some e) => (fs1, ev1, some e)
      | (fs1, ev1, none) =>
          ((processLoop d o total l2 (index + l1.length) fs1).1,
           ev1 ++ (processLoop d o total l2 (index + l1.length) fs1).2.1,
           (processLoop d o total l2 (index + l1.length) fs1).2.2) := by
  induction l1 generalizing index fs with
  | nil => simp [processLoop]
  | cons a l ih =>
      rw [show (a :: l) ++ l2 = a :: (l ++ l2) from rfl]
      cases hstep : processStep d o total a index fs with
      | error e =>
          rw [processLoop_cons_error d o total a (l ++ l2) index fs e hstep,
              processLoop_cons_error d o total a l index fs e hstep]
      | ok p =>
          obtain ⟨evs, fs1⟩ := p
          rw [processLoop_cons_ok d o total a (l ++ l2) index fs evs fs1 hstep,
              processLoop_cons_ok d o total a l index fs evs fs1 hstep, ih]
          have hidx : index + (a :: l).length = index + 1 + l.length := by
            simp only [List.length_cons]
            omega
          rw [hidx]
          rcases hr : processLoop d o total l (index + 1) fs1 with ⟨fs2, ev2, ab⟩
          cases ab <;> simp [List.append_assoc]

/-- Dictionaries never escape an iteration, so a loop over records only
(dicts) never aborts. -/
theorem processLoop_no_abort (d : Downloader) (o : NetOracle) (total : Nat)
    (l : List Json) (index : Nat) (fs : FS)
    (hobj : ∀ a ∈ l, a.isObjB = true) :
    (processLoop d o total l index fs).2.2 = none := by
  induction l generalizing index fs with
  | nil => simp [processLoop]
  | cons a l ih =>
      have hdom : ∃ v, a.dictGet "domain" = .ok v := by
        have := hobj a (by simp)
        cases a <;> simp_all [Json.isObjB, Json.dictGet]
        split <;> exact ⟨_, rfl⟩
      obtain ⟨v, hv⟩ := hdom
      obtain ⟨evs, fs1, hstep⟩ := processStep_ok_of_domain d o total a index fs v hv
      rw [processLoop_cons_ok d o total a l index fs evs fs1 hstep]
      exact ih (index + 1) fs1 (fun x hx => hobj x (by simp [hx]))

/-- A non-record raises `AttributeError` from `app.get('domain')`. -/
theorem dictGet_error_of_not_obj (a : Json) (k : String) (h : a.isObjB = false) :
    a.dictGet k = .error (.attributeError "object has no attribute get") := by
  cases a <;> simp_all [Json.isObjB, Json.dictGet]

/-- **C10.** For every list response containing a non-record element
(e.g. a string or number), processing aborts at that element and for all
remaining elements: `app.get('domain')` is evaluated outside the
per-iteration `try`, so its `AttributeError` is caught only by the
outer handler of `process_all_applications` — the run's output is
exactly the pre-loop events, the events of the records before the bad
element, and the outer handler's error print; the bad element and
everything after it contribute nothing. -/
theorem c10_non_record_ends_loop (d : Downloader) (o : NetOracle) (t : DateTime) (fs : FS)
    (good : List Json) (bad : Json) (rest : List Json)
    (hgood : ∀ a ∈ good, a.isObjB = true) (hbad : bad.isObjB = false)
    (hlist : o.listResponse = .ok (Json.arr (good ++ bad :: rest))) :
    ∃ evPre,
      process_all_applications d o t fs =
        ((processLoop d o (good ++ bad :: rest).length good 1
            (fs.write
              (pathJoin d.download_dir ("applications_list_" ++ strftimeTimestamp t ++ ".json"))
              (dumps (Json.arr (good ++ bad :: rest))))).1,
         evPre ++
         (processLoop d o (good ++ bad :: rest).length good 1
            (fs.write
              (pathJoin d.download_dir ("applications_list_" ++ strftimeTimestamp t ++ ".json"))
              (dumps (Json.arr (good ++ bad :: rest))))).2.1 ++
         [.printed ("Error during process: object has no attribute get")]) := by
  have hga : get_applications d o =
      (.ok (Json.arr (good ++ bad :: rest)),
        (if d.enable_endpoint_logging then
          [Event.printed ("\nCalling applications list endpoint: " ++ (d.base_url ++ "/applications")),
           Event.printed "Headers used:",
           Event.printed ("x-anypnt-env-id: " ++ d.config.environment_id),
           Event.printed ("x-anypnt-org-id: " ++ d.config.organization_id)]
         else []) ++
        [Event.httpGet .list (d.base_url ++ "/applications") d.sessionHeaders]) := by
    unfold get_applications
    rw [hlist]
  set fsW := fs.write
      (pathJoin d.download_dir ("applications_list_" ++ strftimeTimestamp t ++ ".json"))
      (dumps (Json.arr (good ++ bad :: rest))) with hfsW
  have hbadstep : ∀ fsX, processLoop d o (good ++ bad :: rest).length (bad :: rest)
      (1 + good.length) fsX = (fsX, [], some (.attributeError "object has no attribute get")) := by
    intro fsX
    apply processLoop_cons_error
    unfold processStep
    rw [dictGet_error_of_not_obj bad "domain" hbad]
  have hnone := processLoop_no_abort d o (good ++ bad :: rest).length good 1 fsW hgood
  have hsplit := processLoop_append d o (good ++ bad :: rest).length good (bad :: rest) 1 fsW
  rcases hr : processLoop d o (good ++ bad :: rest).length good 1 fsW with ⟨fs1, ev1, ab⟩
  rw [hr] at hnone hsplit
  subst hnone
  dsimp only at hsplit
  rw [hbadstep fs1] at hsplit
  unfold process_all_applications
  rw [hga]
  simp only [pyLen, pyIter]
  rw [← hfsW, hsplit]
  refine ⟨[Event.printed "Starting applications download process..."] ++
      ((if d.enable_endpoint_logging then
          [Event.printed ("\nCalling applications list endpoint: " ++ (d.base_url ++ "/applications")),
           Event.printed "Headers used:",
           Event.printed ("x-anypnt-env-id: " ++ d.config.environment_id),
           Event.printed ("x-anypnt-org-id: " ++ d.config.organization_id)]
        else []) ++
       [Event.httpGet .list (d.base_url ++ "/applications") d.sessionHeaders]) ++
      [Event.printed ("\nFound " ++ toString (good ++ bad :: rest).length ++
         " applications to process"),
       Event.fileWrite (pathJoin d.download_dir ("applications_list_" ++ strftimeTimestamp t ++ ".json"))
         (dumps (Json.arr (good ++ bad :: rest))),
       Event.printed ("Saved applications JSON to: " ++
         pathJoin d.download_dir ("applications_list_" ++ strftimeTimestamp t ++ ".json"))], ?_⟩
  simp [hr, PyError.msg]

/-- Witness for C10: a list response whose second element is the string
`"oops"`. -/
theorem c10_non_record_ends_loop_witness :
    (∀ a ∈ [Json.obj [("domain", Json.str "app1")]], a.isObjB = true) ∧
    (Json.str "oops").isObjB = false ∧
    oracleBadElem.listResponse = .ok (Json.arr
      ([Json.obj [("domain", Json.str "app1")]] ++
        Json.str "oops" :: [Json.obj [("domain", Json.str "app2")]])) ∧
    (∃ evPre,
      process_all_applications dFix oracleBadElem t2fix fs0 =
        ((processLoop dFix oracleBadElem
            ([Json.obj [("domain", Json.str "app1")]] ++
              Json.str "oops" :: [Json.obj [("domain", Json.str "app2")]]).length
            [Json.obj [("domain", Json.str "app1")]] 1
            (fs0.write
              (pathJoin dFix.download_dir
                ("applications_list_" ++ strftimeTimestamp t2fix ++ ".json"))
              (dumps (Json.arr
                ([Json.obj [("domain", Json.str "app1")]] ++
                  Json.str "oops" :: [Json.obj [("domain", Json.str "app2")]]))))).1,
         evPre ++
         (processLoop dFix oracleBadElem
            ([Json.obj [("domain", Json.str "app1")]] ++
              Json.str "oops" :: [Json.obj [("domain", Json.str "app2")]]).length
            [Json.obj [("domain", Json.str "app1")]] 1
            (fs0.write
              (pathJoin dFix.download_dir
                ("applications_list_" ++ strftimeTimestamp t2fix ++ ".json"))
              (dumps (Json.arr
                ([Json.obj [("domain", Json.str "app1")]] ++
                  Json.str "oops" :: [Json.obj [("domain", Json.str "app2")]]))))).2.1 ++
         [.printed ("Error during process: object has no attribute get")])) :=
  ⟨by simp [Json.isObjB], rfl, rfl,
    c10_non_record_ends_loop dFix oracleBadElem t2fix fs0
      [Json.obj [("domain", Json.str "app1")]] (Json.str "oops")
      [Json.obj [("domain", Json.str "app2")]]
      (by simp [Json.isObjB]) rfl rfl⟩

/-! ## Counting the detail calls (C2) -/

/-- A record (dict) always yields some value from `app.get('domain')`. -/
theorem dictGet_ok_of_obj (a : Json) (k : String) (h : a.isObjB = true) :
    ∃ v, a.dictGet k = .ok v := by
  cases a <;> simp_all [Json.isObjB, Json.dictGet]
  split <;> exact ⟨_, rfl⟩

/-- The detail call's event trace, independent of the wire's answer:
the optional endpoint log line and exactly one `GET`. -/
theorem get_application_info_events (d : Downloader) (o : NetOracle) (name : String) :
    (get_application_info d o name).2 =
      (if d.enable_endpoint_logging then
        [Event.printed ("\nCalling application info endpoint: " ++
          (d.base_url ++ "/organizations/" ++ d.config.organization_id ++
            "/environments/" ++ d.config.environment_id ++ "/applications/" ++ name))]
       else []) ++
      [Event.httpGet (.info name)
        (d.base_url ++ "/organizations/" ++ d.config.organization_id ++
          "/environments/" ++ d.config.environment_id ++ "/applications/" ++ name)
        d.sessionHeaders] := by
  unfold get_application_info
  cases o.infoResponse name <;> rfl

/-- A download issues no detail call. -/
theorem download_application_info_count (d : Downloader) (o : NetOracle) (fs : FS)
    (n f : String) :
    ((download_application d o fs n f).2.2).countP (fun e => e.isInfoCall) = 0 := by
  unfold download_application
  rcases o.downloadResponse n f with m | ⟨chunks, merr⟩
  · by_cases hlog : d.enable_endpoint_logging <;> simp [hlog, Event.isInfoCall]
  · cases merr <;> by_cases hlog : d.enable_endpoint_logging <;>
      simp [hlog, Event.isInfoCall]

/-- One iteration over a record attempts exactly one detail call when the
record has a usable identifier, and none otherwise. -/
theorem processStep_info_count (d : Downloader) (o : NetOracle) (total : Nat)
    (a : Json) (index : Nat) (fs : FS) (evs : List Event) (fs1 : FS)
    (ha : a.isObjB = true)
    (hstep : processStep d o total a index fs = .ok (evs, fs1)) :
    evs.countP (fun e => e.isInfoCall) = (if hasTruthyDomain a then 1 else 0) := by
  obtain ⟨v, hv⟩ := dictGet_ok_of_obj a "domain" ha
  have hht : hasTruthyDomain a = v.truthy := by simp [hasTruthyDomain, hv]
  have hevI : ((get_application_info d o (pyStr v)).2).countP (fun e => e.isInfoCall) = 1 := by
    rw [get_application_info_events d o (pyStr v)]
    by_cases hlog : d.enable_endpoint_logging <;> simp [hlog, Event.isInfoCall]
  unfold processStep at hstep
  rw [hv] at hstep
  cases htr : v.truthy with
  | false =>
      simp only [htr, Bool.not_false, if_true, Except.ok.injEq, Prod.mk.injEq] at hstep
      obtain ⟨h1, h2⟩ := hstep
      subst h1
      simp [hht, htr]
  | true =>
      simp only [htr, Bool.not_true, Bool.false_eq_true, if_false] at hstep
      rcases hgi : get_application_info d o (pyStr v) with ⟨res, evI⟩
      rw [hgi] at hstep hevI
      simp only at hevI
      cases res with
      | error e =>
          simp only [Except.ok.injEq, Prod.mk.injEq] at hstep
          obtain ⟨h1, h2⟩ := hstep
          subst h1
          simp only [Event.isInfoCall] at hevI
          simp [hht, htr, List.countP_append, List.countP_cons, hevI, Event.isInfoCall]
      | ok app_info =>
          cases hfn : app_info.dictGet "filename" with
          | error e =>
              simp only [hfn, Except.ok.injEq, Prod.mk.injEq] at hstep
              obtain ⟨h1, h2⟩ := hstep
              subst h1
              simp only [Event.isInfoCall] at hevI
              simp [hht, htr, List.countP_append, List.countP_cons, hevI, Event.isInfoCall]
          | ok fileV =>
              cases hfv : fileV.truthy with
              | false =>
                  simp only [hfn, hfv, Bool.not_false, if_true,
                    Except.ok.injEq, Prod.mk.injEq] at hstep
                  obtain ⟨h1, h2⟩ := hstep
                  subst h1
                  simp only [Event.isInfoCall] at hevI
                  simp [hht, htr, List.countP_append, List.countP_cons, hevI, Event.isInfoCall]
              | true =>
                  have hD := download_application_info_count d o fs (pyStr v) (pyStr fileV)
                  simp only [hfn, hfv, Bool.not_true, Bool.false_eq_true, if_false,
                    Except.ok.injEq, Prod.mk.injEq] at hstep
                  obtain ⟨h1, h2⟩ := hstep
                  subst h1
                  simp only [Event.isInfoCall] at hevI hD
                  cases hres : (download_application d o fs (pyStr v) (pyStr fileV)).1 <;>
                    simp [hres, hht, htr, List.countP_append, List.countP_cons, hevI, hD,
                      Event.isInfoCall]

/-- The loop over records attempts one detail call per record with a
usable identifier. -/
theorem processLoop_info_count (d : Downloader) (o : NetOracle) (total : Nat)
    (l : List Json) (index : Nat) (fs : FS) (hobj : ∀ a ∈ l, a.isObjB = true) :
    ((processLoop d o total l index fs).2.1).countP (fun e => e.isInfoCall) =
      (l.filter (fun a => hasTruthyDomain a)).length := by
  induction l generalizing index fs with
  | nil => simp [processLoop]
  | cons a l ih =>
      obtain ⟨v, hv⟩ := dictGet_ok_of_obj a "domain" (hobj a (by simp))
      obtain ⟨evs, fs1, hstep⟩ := processStep_ok_of_domain d o total a index fs v hv
      have hcount := processStep_info_count d o total a index fs evs fs1 (hobj a (by simp)) hstep
      rw [processLoop_cons_ok d o total a l index fs evs fs1 hstep]
      simp only [List.countP_append, hcount, List.filter_cons]
      rw [ih (index + 1) fs1 (fun x hx => hobj x (by simp [hx]))]
      cases hd : hasTruthyDomain a
      · simp [hd]
      · simp [hd]
        omega

/-- **C2.** For every list response consisting of N summary records
(dicts) of which M lack a usable identifier (`app.get('domain')` falsy),
`process_all_applications` attempts exactly N−M detail calls
(`get_application_info` requests on the wire), skipping the M
identifier-less records silently. -/
theorem c2_detail_call_count (d : Downloader) (o : NetOracle) (t : DateTime) (fs : FS)
    (apps : List Json)
    (hlist : o.listResponse = .ok (Json.arr apps))
    (hobj : ∀ a ∈ apps, a.isObjB = true) :
    ((process_all_applications d o t fs).2).countP (fun e => e.isInfoCall) =
      apps.length - apps.countP (fun a => !hasTruthyDomain a) := by
  have hga : get_applications d o =
      (.ok (Json.arr apps),
        (if d.enable_endpoint_logging then
          [Event.printed ("\nCalling applications list endpoint: " ++
            (d.base_url ++ "/applications")),
           Event.printed "Headers used:",
           Event.printed ("x-anypnt-env-id: " ++ d.config.environment_id),
           Event.printed ("x-anypnt-org-id: " ++ d.config.organization_id)]
         else []) ++
        [Event.httpGet .list (d.base_url ++ "/applications") d.sessionHeaders]) := by
    unfold get_applications
    rw [hlist]
  have harith : (apps.filter (fun a => hasTruthyDomain a)).length =
      apps.length - apps.countP (fun a => !hasTruthyDomain a) := by
    clear hlist hobj hga
    induction apps with
    | nil => simp
    | cons x xs ih =>
        have hle := @List.countP_le_length Json (fun a => !hasTruthyDomain a) xs
        cases h : hasTruthyDomain x <;>
          simp only [List.filter_cons, List.countP_cons, List.length_cons, h, ih,
            Bool.not_false, Bool.not_true, if_true, if_false, Bool.false_eq_true] <;>
          omega
  rw [← harith]
  unfold process_all_applications
  rw [hga]
  simp only [pyLen, pyIter]
  have hloop := processLoop_info_count d o apps.length apps 1
    (fs.write (pathJoin d.download_dir ("applications_list_" ++ strftimeTimestamp t ++ ".json"))
      (dumps (Json.arr apps))) hobj
  rcases hr : processLoop d o apps.length apps 1
      (fs.write (pathJoin d.download_dir ("applications_list_" ++ strftimeTimestamp t ++ ".json"))
        (dumps (Json.arr apps))) with ⟨fs2, ev2, ab⟩
  rw [hr] at hloop
  simp only at hloop
  simp only [Event.isInfoCall] at hloop
  cases ab <;>
    · by_cases hlog : d.enable_endpoint_logging <;>
        simp [hlog, Event.isInfoCall, List.countP_append, List.countP_cons, hloop]

/-- Witness for C2: two records, one lacking a domain — one detail call. -/
theorem c2_detail_call_count_witness :
    oracleFix.listResponse = .ok (Json.arr
      [Json.obj [("domain", Json.str "app1")], Json.obj [("id", Json.num 7)]]) ∧
    (∀ a ∈ [Json.obj [("domain", Json.str "app1")], Json.obj [("id", Json.num 7)]],
      a.isObjB = true) ∧
    ((process_all_applications dFix oracleFix t2fix fs0).2).countP
        (fun e => e.isInfoCall) =
      [Json.obj [("domain", Json.str "app1")], Json.obj [("id", Json.num 7)]].length -
        [Json.obj [("domain", Json.str "app1")], Json.obj [("id", Json.num 7)]].countP
          (fun a => !hasTruthyDomain a) :=
  ⟨rfl, by simp [Json.isObjB],
    c2_detail_call_count dFix oracleFix t2fix fs0 _ rfl (by simp [Json.isObjB])⟩

/-! ## Session headers travel with every request (C4) -/

/-- The list call sends the session's headers. -/
theorem get_applications_headers (d : Downloader) (o : NetOracle) :
    ((get_applications d o).2).all (Event.usesHeaders d.sessionHeaders) = true := by
  unfold get_applications
  cases o.listResponse <;> by_cases hlog : d.enable_endpoint_logging <;>
    simp [hlog, Event.usesHeaders]

/-- The detail call sends the session's headers. -/
theorem get_application_info_headers (d : Downloader) (o : NetOracle) (name : String) :
    ((get_application_info d o name).2).all (Event.usesHeaders d.sessionHeaders) = true := by
  rw [get_application_info_events d o name]
  by_cases hlog : d.enable_endpoint_logging <;> simp [hlog, Event.usesHeaders]

/-- The download call sends the session's headers. -/
theorem download_application_headers (d : Downloader) (o : NetOracle) (fs : FS)
    (n f : String) :
    ((download_application d o fs n f).2.2).all (Event.usesHeaders d.sessionHeaders) = true := by
  unfold download_application
  rcases o.downloadResponse n f with m | ⟨chunks, merr⟩
  · by_cases hlog : d.enable_endpoint_logging <;> simp [hlog, Event.usesHeaders]
  · cases merr <;> by_cases hlog : d.enable_endpoint_logging <;>
      simp [hlog, Event.usesHeaders]

/-- Every request an iteration issues carries the session's headers. -/
theorem processStep_headers (d : Downloader) (o : NetOracle) (total : Nat)
    (a : Json) (index : Nat) (fs : FS) (evs : List Event) (fs1 : FS)
    (hstep : processStep d o total a index fs = .ok (evs, fs1)) :
    evs.all (Event.usesHeaders d.sessionHeaders) = true := by
  unfold processStep at hstep
  cases hdom : a.dictGet "domain" with
  | error e => rw [hdom] at hstep; simp at hstep
  | ok v =>
      rw [hdom] at hstep
      cases htr : v.truthy with
      | false =>
          simp only [htr, Bool.not_false, if_true, Except.ok.injEq, Prod.mk.injEq] at hstep
          obtain ⟨h1, h2⟩ := hstep
          subst h1
          simp
      | true =>
          have hevI := get_application_info_headers d o (pyStr v)
          simp only [htr, Bool.not_true, Bool.false_eq_true, if_false] at hstep
          rcases hgi : get_application_info d o (pyStr v) with ⟨res, evI⟩
          rw [hgi] at hstep hevI
          simp only at hevI
          cases res with
          | error e =>
              simp only [Except.ok.injEq, Prod.mk.injEq] at hstep
              obtain ⟨h1, h2⟩ := hstep
              subst h1
              simp [List.all_append, hevI, Event.usesHeaders]
          | ok app_info =>
              cases hfn : app_info.dictGet "filename" with
              | error e =>
                  simp only [hfn, Except.ok.injEq, Prod.mk.injEq] at hstep
                  obtain ⟨h1, h2⟩ := hstep
                  subst h1
                  simp [List.all_append, hevI, Event.usesHeaders]
              | ok fileV =>
                  cases hfv : fileV.truthy with
                  | false =>
                      simp only [hfn, hfv, Bool.not_false, if_true,
                        Except.ok.injEq, Prod.mk.injEq] at hstep
                      obtain ⟨h1, h2⟩ := hstep
                      subst h1
                      simp [List.all_append, hevI, Event.usesHeaders]
                  | true =>
                      have hD := download_application_headers d o fs (pyStr v) (pyStr fileV)
                      simp only [hfn, hfv, Bool.not_true, Bool.false_eq_true, if_false,
                        Except.ok.injEq, Prod.mk.injEq] at hstep
                      obtain ⟨h1, h2⟩ := hstep
                      subst h1
                      cases hres : (download_application d o fs (pyStr v) (pyStr fileV)).1 <;>
                        simp [hres, List.all_append, hevI, hD, Event.usesHeaders]

/-- Every request the loop issues carries the session's headers. -/
theorem processLoop_headers (d : Downloader) (o : NetOracle) (total : Nat)
    (l : List Json) (index : Nat) (fs : FS) :
    ((processLoop d o total l index fs).2.1).all (Event.usesHeaders d.sessionHeaders) = true := by
  induction l generalizing index fs with
  | nil => simp [processLoop]
  | cons a l ih =>
      cases hstep : processStep d o total a index fs with
      | error e => simp [processLoop_cons_error d o total a l index fs e hstep]
      | ok p =>
          obtain ⟨evs, fs1⟩ := p
          rw [processLoop_cons_ok d o total a l index fs evs fs1 hstep]
          simp only [List.all_append, Bool.and_eq_true]
          exact ⟨processStep_headers d o total a index fs evs fs1 hstep, ih (index + 1) fs1⟩

/-- Every request the whole batch run issues carries the session's
headers. -/
theorem process_all_applications_headers (d : Downloader) (o : NetOracle) (t : DateTime)
    (fs : FS) :
    ((process_all_applications d o t fs).2).all (Event.usesHeaders d.sessionHeaders) = true := by
  unfold process_all_applications
  have hL := get_applications_headers d o
  rcases hga : get_applications d o with ⟨ra, evL⟩
  rw [hga] at hL
  simp only at hL
  cases ra with
  | error e => simp [List.all_append, hL, Event.usesHeaders]
  | ok applications =>
      cases hlen : pyLen applications with
      | error e => simp [hlen, List.all_append, hL, Event.usesHeaders]
      | ok total_apps =>
          cases hit : pyIter applications with
          | error e => simp [hlen, hit, List.all_append, hL, Event.usesHeaders]
          | ok elems =>
              have hloop := processLoop_headers d o total_apps elems 1
                (fs.write
                  (pathJoin d.download_dir
                    ("applications_list_" ++ strftimeTimestamp t ++ ".json"))
                  (dumps applications))
              rcases hr : processLoop d o total_apps elems 1
                  (fs.write
                    (pathJoin d.download_dir
                      ("applications_list_" ++ strftimeTimestamp t ++ ".json"))
                    (dumps applications)) with ⟨fs2, ev2, ab⟩
              rw [hr] at hloop
              simp only at hloop
              cases ab <;> simp [hlen, hit, hr, List.all_append, hL, hloop, Event.usesHeaders]

/-- `init` succeeds only with the authorization and tenant headers
installed on the session. -/
theorem init_ok_headers (env : Env) (o : NetOracle) (t : DateTime) (fs : FS)
    (d : Downloader) (fs1 : FS) (ev1 : List Event)
    (hinit : init env o t fs = (.ok d, fs1, ev1)) :
    ∃ tok, d.sessionHeaders =
      [("Authorization", "Bearer " ++ tok), ("Content-Type", "application/json"),
       ("x-anypnt-env-id", d.config.environment_id),
       ("x-anypnt-org-id", d.config.organization_id)] := by
  unfold init at hinit
  cases hlc : _load_config env with
  | error e => rw [hlc] at hinit; simp at hinit
  | ok lc =>
      rw [hlc] at hinit
      dsimp only at hinit
      rcases hsb : _setup_base_urls lc with ⟨rb, evB⟩
      rw [hsb] at hinit
      cases rb with
      | error e => simp at hinit
      | ok urls =>
          obtain ⟨auth_url, base_url⟩ := urls
          dsimp only at hinit
          rcases hss : _setup_session lc auth_url o with ⟨rs, evS⟩
          rw [hss] at hinit
          cases rs with
          | error e => simp at hinit
          | ok headers =>
              dsimp only [_setup_download_dir] at hinit
              unfold _setup_session at hss
              cases har : o.authResponse with
              | error m => rw [har] at hss; simp at hss
              | ok body =>
                  rw [har] at hss
                  dsimp only at hss
                  cases hix : body.index "access_token" with
                  | error e => rw [hix] at hss; simp at hss
                  | ok tokenV =>
                      rw [hix] at hss
                      simp only [Prod.mk.injEq, Except.ok.injEq] at hss hinit
                      obtain ⟨hh, hevS⟩ := hss
                      obtain ⟨hd, hfs, hev⟩ := hinit
                      refine ⟨pyStr tokenV, ?_⟩
                      rw [← hd, ← hh]

/-- **C4.** If all required configuration values are present and
authentication succeeds (`__init__` returns a downloader), then every
HTTP request `process_all_applications` subsequently issues — the list,
every detail fetch, every download — carries the three headers
`Authorization` (the bearer token), `x-anypnt-org-id` and
`x-anypnt-env-id`: they were set once on the shared session that all
later calls go through. -/
theorem c4_headers_on_every_request (env : Env) (o : NetOracle) (t : DateTime) (fs : FS)
    (d : Downloader) (fs1 : FS) (ev1 : List Event)
    (hinit : init env o t fs = (.ok d, fs1, ev1))
    (t2 : DateTime) (fs2 : FS) (call : ApiCall) (url : String)
    (hdrs : List (String × String))
    (hmem : Event.httpGet call url hdrs ∈ (process_all_applications d o t2 fs2).2) :
    (∃ tok, ("Authorization", "Bearer " ++ tok) ∈ hdrs) ∧
    ("x-anypnt-org-id", d.config.organization_id) ∈ hdrs ∧
    ("x-anypnt-env-id", d.config.environment_id) ∈ hdrs := by
  obtain ⟨tok, hhs⟩ := init_ok_headers env o t fs d fs1 ev1 hinit
  have hall := process_all_applications_headers d o t2 fs2
  rw [List.all_eq_true] at hall
  have hev := hall _ hmem
  simp only [Event.usesHeaders, decide_eq_true_eq] at hev
  subst hev
  rw [hhs]
  exact ⟨⟨tok, by simp⟩, by simp, by simp⟩

/-- Witness for C4 at the concrete fixture run (the list request). -/
theorem c4_headers_on_every_request_witness :
    init envOk oracleFix t1fix fs0 =
      (.ok dFix, fs0.mkdirs ("downloads_" ++ strftimeTimestamp t1fix),
       [Event.printed "\nUsing control plane: us",
        Event.printed "Base URL: https://anypoint.mulesoft.com/cloudhub/api",
        Event.printed
          "\nCalling authentication endpoint: https://anypoint.mulesoft.com/accounts/api/v2/oauth2/token",
        Event.httpPost "https://anypoint.mulesoft.com/accounts/api/v2/oauth2/token"
          [("grant_type", "client_credentials"), ("client_id", "my-id"),
           ("client_secret", "my-secret")],
        Event.mkdir ("downloads_" ++ strftimeTimestamp t1fix)]) ∧
    Event.httpGet .list "https://anypoint.mulesoft.com/cloudhub/api/applications"
        dFix.sessionHeaders ∈ (process_all_applications dFix oracleFix t2fix fs0).2 ∧
    ((∃ tok, ("Authorization", "Bearer " ++ tok) ∈ dFix.sessionHeaders) ∧
     ("x-anypnt-org-id", dFix.config.organization_id) ∈ dFix.sessionHeaders ∧
     ("x-anypnt-env-id", dFix.config.environment_id) ∈ dFix.sessionHeaders) :=
  ⟨rfl, by simp [process_all_applications, get_applications, get_application_info,
      download_application, oracleFix, appsFix, dFix, pyLen, pyIter, processLoop, processStep,
      Json.dictGet, Json.truthy, pyStr, List.find?],
    c4_headers_on_every_request envOk oracleFix t1fix fs0 dFix _ _ rfl t2fix fs0
      .list "https://anypoint.mulesoft.com/cloudhub/api/applications" dFix.sessionHeaders
      (by simp [process_all_applications, get_applications, get_application_info,
        download_application, oracleFix, appsFix, dFix, pyLen, pyIter, processLoop, processStep,
        Json.dictGet, Json.truthy, pyStr, List.find?])⟩

/-! ## Decimal digits: values and lengths (towards C6 and C7) -/

/-- `digitChar` of a decimal digit, numerically. -/
theorem digitChar_toNat (k : Nat) (h : k < 10) : (Nat.digitChar k).toNat = 48 + k := by
  interval_cases k <;> rfl

/-- `digitChar` of a decimal digit is a digit character. -/
theorem digitChar_isDigit (k : Nat) (h : k < 10) : (Nat.digitChar k).isDigit = true := by
  interval_cases k <;> rfl

/-- A number renders as at least one character. -/
theorem natDigits_ne_nil (n : Nat) : natDigits n ≠ [] := by
  unfold natDigits
  split <;> simp

/-- Every rendered character is a decimal digit. -/
theorem natDigits_all_digit (n : Nat) : ∀ c ∈ natDigits n, c.isDigit = true := by
  induction n using Nat.strong_induction_on with
  | _ n ih =>
      unfold natDigits
      split
      · rename_i h
        intro c hc
        simp only [List.mem_singleton] at hc
        subst hc
        exact digitChar_isDigit n h
      · rename_i h
        intro c hc
        rw [List.mem_append, List.mem_singleton] at hc
        rcases hc with hc | hc
        · exact ih (n / 10) (Nat.div_lt_self (by omega) (by omega)) c hc
        · subst hc
          exact digitChar_isDigit (n % 10) (Nat.mod_lt _ (by omega))

/-- Reading the digits back gives the number. -/
theorem digitsVal_natDigits (n : Nat) : digitsVal (natDigits n) = n := by
  induction n using Nat.strong_induction_on with
  | _ n ih =>
      unfold natDigits digitsVal
      split
      · rename_i h
        simp only [List.foldl_cons, List.foldl_nil]
        rw [digitChar_toNat n h]
        omega
      · rename_i h
        rw [List.foldl_append]
        have ihd := ih (n / 10) (Nat.div_lt_self (by omega) (by omega))
        unfold digitsVal at ihd
        rw [ihd]
        simp only [List.foldl_cons, List.foldl_nil]
        rw [digitChar_toNat (n % 10) (Nat.mod_lt _ (by omega))]
        omega

/-- At most `k+1` digits below `10^(k+1)`. -/
theorem natDigits_length_le (k : Nat) : ∀ n, n < 10 ^ (k + 1) → (natDigits n).length ≤ k + 1 := by
  induction k with
  | zero =>
      intro n h
      rw [pow_one] at h
      unfold natDigits
      split
      · simp
      · omega
  | succ k ih =>
      intro n h
      unfold natDigits
      split
      · simp
      · rename_i h10
        rw [List.length_append, List.length_singleton]
        have hdiv : n / 10 < 10 ^ (k + 1) := by
          rw [pow_succ] at h
          exact Nat.div_lt_of_lt_mul (by omega)
        have := ih (n / 10) hdiv
        omega

/-- Padding reaches exactly the requested width when it suffices. -/
theorem padDigits_length (w n : Nat) (h : (natDigits n).length ≤ w) :
    (padDigits w n).length = w := by
  unfold padDigits
  rw [List.length_append, List.length_replicate]
  omega

/-- Leading zeros contribute nothing to the value. -/
theorem foldl_zeros (k : Nat) (ds : List Char) :
    List.foldl (fun a c => 10 * a + (c.toNat - 48)) 0 (List.replicate k '0' ++ ds) =
      List.foldl (fun a c => 10 * a + (c.toNat - 48)) 0 ds := by
  induction k with
  | zero => rfl
  | succ k ih => simpa [List.replicate_succ] using ih

/-- Reading a padded number back gives the number. -/
theorem digitsVal_padDigits (w n : Nat) : digitsVal (padDigits w n) = n := by
  unfold padDigits digitsVal
  rw [foldl_zeros]
  have := digitsVal_natDigits n
  unfold digitsVal at this
  exact this

/-! ## Timestamp injectivity and run isolation (C7) -/

/-- `strftime("%Y%m%d_%H%M%S")` is injective at second granularity on
the times `datetime` can produce. -/
theorem strftimeTimestamp_inj (t1 t2 : DateTime) (h1 : t1.Valid) (h2 : t2.Valid)
    (heq : strftimeTimestamp t1 = strftimeTimestamp t2) :
    t1.year = t2.year ∧ t1.month = t2.month ∧ t1.day = t2.day ∧
    t1.hour = t2.hour ∧ t1.minute = t2.minute ∧ t1.second = t2.second := by
  obtain ⟨ha1, hb1, hc1, hd1, he1, hf1, hg1, hh1, hi1, _⟩ := h1
  obtain ⟨ha2, hb2, hc2, hd2, he2, hf2, hg2, hh2, hi2, _⟩ := h2
  have l2 : ∀ m : Nat, m < 100 → (natDigits m).length ≤ 2 := fun m hm =>
    natDigits_length_le 1 m (by norm_num; omega)
  have l4 : ∀ m : Nat, m < 10000 → (natDigits m).length ≤ 4 := fun m hm =>
    natDigits_length_le 3 m (by norm_num; omega)
  have hdata := congrArg String.data heq
  unfold strftimeTimestamp at hdata
  simp only [List.append_assoc] at hdata
  obtain ⟨ey, hdata⟩ := List.append_inj hdata
    ((padDigits_length 4 t1.year (l4 _ (by omega))).trans
      (padDigits_length 4 t2.year (l4 _ (by omega))).symm)
  obtain ⟨emo, hdata⟩ := List.append_inj hdata
    ((padDigits_length 2 t1.month (l2 _ (by omega))).trans
      (padDigits_length 2 t2.month (l2 _ (by omega))).symm)
  obtain ⟨ed, hdata⟩ := List.append_inj hdata
    ((padDigits_length 2 t1.day (l2 _ (by omega))).trans
      (padDigits_length 2 t2.day (l2 _ (by omega))).symm)
  obtain ⟨eu, hdata⟩ := List.append_inj hdata rfl
  obtain ⟨eh, hdata⟩ := List.append_inj hdata
    ((padDigits_length 2 t1.hour (l2 _ (by omega))).trans
      (padDigits_length 2 t2.hour (l2 _ (by omega))).symm)
  obtain ⟨emi, es⟩ := List.append_inj hdata
    ((padDigits_length 2 t1.minute (l2 _ (by omega))).trans
      (padDigits_length 2 t2.minute (l2 _ (by omega))).symm)
  refine ⟨?_, ?_, ?_, ?_, ?_, ?_⟩
  · have := congrArg digitsVal ey
    rwa [digitsVal_padDigits, digitsVal_padDigits] at this
  · have := congrArg digitsVal emo
    rwa [digitsVal_padDigits, digitsVal_padDigits] at this
  · have := congrArg digitsVal ed
    rwa [digitsVal_padDigits, digitsVal_padDigits] at this
  · have := congrArg digitsVal eh
    rwa [digitsVal_padDigits, digitsVal_padDigits] at this
  · have := congrArg digitsVal emi
    rwa [digitsVal_padDigits, digitsVal_padDigits] at this
  · have := congrArg digitsVal es
    rwa [digitsVal_padDigits, digitsVal_padDigits] at this

/-- The timestamp renders as exactly 15 characters on valid times. -/
theorem strftimeTimestamp_length (t : DateTime) (h : t.Valid) :
    (strftimeTimestamp t).data.length = 15 := by
  obtain ⟨ha, hb, hc, hd, he, hf, hg, hh, hi, _⟩ := h
  have l2 : ∀ m : Nat, m < 100 → (natDigits m).length ≤ 2 := fun m hm =>
    natDigits_length_le 1 m (by norm_num; omega)
  have l4 : ∀ m : Nat, m < 10000 → (natDigits m).length ≤ 4 := fun m hm =>
    natDigits_length_le 3 m (by norm_num; omega)
  unfold strftimeTimestamp
  simp only [List.length_append, List.length_singleton]
  rw [padDigits_length 4 t.year (l4 _ (by omega)),
      padDigits_length 2 t.month (l2 _ (by omega)),
      padDigits_length 2 t.day (l2 _ (by omega)),
      padDigits_length 2 t.hour (l2 _ (by omega)),
      padDigits_length 2 t.minute (l2 _ (by omega)),
      padDigits_length 2 t.second (l2 _ (by omega))]

/-- The characters of a joined path. -/
theorem pathJoin_data (a b : String) :
    (pathJoin a b).data = (a.data ++ ['/']) ++ b.data := by
  unfold pathJoin
  rw [String.data_append, String.data_append]

/-- Both path shapes the program writes sit under the run directory. -/
theorem pathJoin_under1 (dir s : String) :
    dir.data ++ ['/'] <+: (pathJoin dir s).data := by
  rw [pathJoin_data]
  exact List.prefix_append _ _

/-- Likewise for the two-level artifact paths. -/
theorem pathJoin_under2 (dir s1 s2 : String) :
    dir.data ++ ['/'] <+: (pathJoin (pathJoin dir s1) s2).data := by
  have h : (pathJoin (pathJoin dir s1) s2).data =
      (dir.data ++ ['/']) ++ (s1.data ++ ['/'] ++ s2.data) := by
    rw [pathJoin_data, pathJoin_data]
    simp [List.append_assoc]
  rw [h]
  exact List.prefix_append _ _

/-- Every file a download writes sits under the run directory. -/
theorem download_application_writesUnder (d : Downloader) (o : NetOracle) (fs : FS)
    (n f : String) :
    ((download_application d o fs n f).2.2).all (Event.writesUnder d.download_dir) = true := by
  unfold download_application
  rcases o.downloadResponse n f with m | ⟨chunks, merr⟩
  · by_cases hlog : d.enable_endpoint_logging <;> simp [hlog, Event.writesUnder]
  · cases merr <;> by_cases hlog : d.enable_endpoint_logging <;>
      simp [hlog, Event.writesUnder, pathJoin_under2]

/-- Every file an iteration writes sits under the run directory. -/
theorem processStep_writesUnder (d : Downloader) (o : NetOracle) (total : Nat)
    (a : Json) (index : Nat) (fs : FS) (evs : List Event) (fs1 : FS)
    (hstep : processStep d o total a index fs = .ok (evs, fs1)) :
    evs.all (Event.writesUnder d.download_dir) = true := by
  unfold processStep at hstep
  cases hdom : a.dictGet "domain" with
  | error e => rw [hdom] at hstep; simp at hstep
  | ok v =>
      rw [hdom] at hstep
      cases htr : v.truthy with
      | false =>
          simp only [htr, Bool.not_false, if_true, Except.ok.injEq, Prod.mk.injEq] at hstep
          obtain ⟨h1, h2⟩ := hstep
          subst h1
          simp
      | true =>
          have hevI : ((get_application_info d o (pyStr v)).2).all
              (Event.writesUnder d.download_dir) = true := by
            rw [get_application_info_events d o (pyStr v)]
            by_cases hlog : d.enable_endpoint_logging <;> simp [hlog, Event.writesUnder]
          simp only [htr, Bool.not_true, Bool.false_eq_true, if_false] at hstep
          rcases hgi : get_application_info d o (pyStr v) with ⟨res, evI⟩
          rw [hgi] at hstep hevI
          simp only at hevI
          cases res with
          | error e =>
              simp only [Except.ok.injEq, Prod.mk.injEq] at hstep
              obtain ⟨h1, h2⟩ := hstep
              subst h1
              simp [List.all_append, hevI, Event.writesUnder]
          | ok app_info =>
              cases hfn : app_info.dictGet "filename" with
              | error e =>
                  simp only [hfn, Except.ok.injEq, Prod.mk.injEq] at hstep
                  obtain ⟨h1, h2⟩ := hstep
                  subst h1
                  simp [List.all_append, hevI, Event.writesUnder]
              | ok fileV =>
                  cases hfv : fileV.truthy with
                  | false =>
                      simp only [hfn, hfv, Bool.not_false, if_true,
                        Except.ok.injEq, Prod.mk.injEq] at hstep
                      obtain ⟨h1, h2⟩ := hstep
                      subst h1
                      simp [List.all_append, hevI, Event.writesUnder]
                  | true =>
                      have hD := download_application_writesUnder d o fs (pyStr v) (pyStr fileV)
                      simp only [hfn, hfv, Bool.not_true, Bool.false_eq_true, if_false,
                        Except.ok.injEq, Prod.mk.injEq] at hstep
                      obtain ⟨h1, h2⟩ := hstep
                      subst h1
                      cases hres : (download_application d o fs (pyStr v) (pyStr fileV)).1 <;>
                        simp [hres, List.all_append, hevI, hD, Event.writesUnder]

/-- Every file the loop writes sits under the run directory. -/
theorem processLoop_writesUnder (d : Downloader) (o : NetOracle) (total : Nat)
    (l : List Json) (index : Nat) (fs : FS) :
    ((processLoop d o total l index fs).2.1).all (Event.writesUnder d.download_dir) = true := by
  induction l generalizing index fs with
  | nil => simp [processLoop]
  | cons a l ih =>
      cases hstep : processStep d o total a index fs with
      | error e => simp [processLoop_cons_error d o total a l index fs e hstep]
      | ok p =>
          obtain ⟨evs, fs1⟩ := p
          rw [processLoop_cons_ok d o total a l index fs evs fs1 hstep]
          simp only [List.all_append, Bool.and_eq_true]
          exact ⟨processStep_writesUnder d o total a index fs evs fs1 hstep, ih (index + 1) fs1⟩

/-- Every file the whole run writes sits under the run directory. -/
theorem process_all_applications_writesUnder (d : Downloader) (o : NetOracle) (t : DateTime)
    (fs : FS) :
    ((process_all_applications d o t fs).2).all (Event.writesUnder d.download_dir) = true := by
  unfold process_all_applications
  rcases hga : get_applications d o with ⟨ra, evL⟩
  have hL : evL.all (Event.writesUnder d.download_dir) = true := by
    unfold get_applications at hga
    cases hlr : o.listResponse <;> rw [hlr] at hga <;>
      by_cases hlog : d.enable_endpoint_logging <;>
      simp only [hlog, if_true, if_false, Prod.mk.injEq] at hga <;>
      rw [← hga.2] <;> simp [Event.writesUnder]
  cases ra with
  | error e => simp [List.all_append, hL, Event.writesUnder]
  | ok applications =>
      cases hlen : pyLen applications with
      | error e => simp [hlen, List.all_append, hL, Event.writesUnder]
      | ok total_apps =>
          cases hit : pyIter applications with
          | error e =>
              simp [hlen, hit, List.all_append, hL, Event.writesUnder, pathJoin_under1]
          | ok elems =>
              have hloop := processLoop_writesUnder d o total_apps elems 1
                (fs.write
                  (pathJoin d.download_dir
                    ("applications_list_" ++ strftimeTimestamp t ++ ".json"))
                  (dumps applications))
              rcases hr : processLoop d o total_apps elems 1
                  (fs.write
                    (pathJoin d.download_dir
                      ("applications_list_" ++ strftimeTimestamp t ++ ".json"))
                    (dumps applications)) with ⟨fs2, ev2, ab⟩
              rw [hr] at hloop
              simp only at hloop
              cases ab <;>
                simp [hlen, hit, hr, List.all_append, hL, hloop, Event.writesUnder,
                  pathJoin_under1]

/-- **C7 (counterexample).** Two process invocations started at
*different* times — here the very same second, microseconds apart —
produce the *same* run directory name: the format has only second
granularity, so the claim fails as stated. -/
theorem c7_subsecond_times_collide :
    (⟨2024, 1, 1, 0, 0, 0, 0⟩ : DateTime) ≠ ⟨2024, 1, 1, 0, 0, 0, 500000⟩ ∧
    (_setup_download_dir ⟨2024, 1, 1, 0, 0, 0, 0⟩ fs0).1 =
      (_setup_download_dir ⟨2024, 1, 1, 0, 0, 0, 500000⟩ fs0).1 :=
  ⟨by decide, rfl⟩

/-- **C7 (amended).** For every two process invocations whose start
times differ at second granularity (some `%Y%m%d_%H%M%S` field
differs), the timestamp-derived run directory names differ, and the two
runs write disjoint sets of file paths — no file of one run is ever
overwritten by the other — whatever the two runs download. -/
theorem c7_second_distinct_runs_never_collide (t1 t2 : DateTime)
    (h1 : t1.Valid) (h2 : t2.Valid)
    (hne : (t1.year, t1.month, t1.day, t1.hour, t1.minute, t1.second) ≠
           (t2.year, t2.month, t2.day, t2.hour, t2.minute, t2.second))
    (fsA fsB : FS) (d1 d2 : Downloader) (o1 o2 : NetOracle) (ta tb : DateTime)
    (hd1 : d1.download_dir = (_setup_download_dir t1 fsA).1)
    (hd2 : d2.download_dir = (_setup_download_dir t2 fsB).1) :
    (_setup_download_dir t1 fsA).1 ≠ (_setup_download_dir t2 fsB).1 ∧
    ∀ p c1 c2, Event.fileWrite p c1 ∈ (process_all_applications d1 o1 ta fsA).2 →
      Event.fileWrite p c2 ∈ (process_all_applications d2 o2 tb fsB).2 → False := by
  have hdirne : (_setup_download_dir t1 fsA).1 ≠ (_setup_download_dir t2 fsB).1 := by
    intro hcontra
    unfold _setup_download_dir at hcontra
    simp only at hcontra
    have hts : strftimeTimestamp t1 = strftimeTimestamp t2 := by
      have := congrArg String.data hcontra
      rw [String.data_append, String.data_append] at this
      exact String.ext (List.append_cancel_left this)
    obtain ⟨e1, e2, e3, e4, e5, e6⟩ := strftimeTimestamp_inj t1 t2 h1 h2 hts
    exact hne (by rw [e1, e2, e3, e4, e5, e6])
  refine ⟨hdirne, ?_⟩
  intro p c1 c2 hm1 hm2
  have ha1 := process_all_applications_writesUnder d1 o1 ta fsA
  have ha2 := process_all_applications_writesUnder d2 o2 tb fsB
  rw [List.all_eq_true] at ha1 ha2
  have hw1 := ha1 _ hm1
  have hw2 := ha2 _ hm2
  simp only [Event.writesUnder, List.isPrefixOf_iff_prefix] at hw1 hw2
  have hlen : ((d1.download_dir ++ "/").data).length = ((d2.download_dir ++ "/").data).length := by
    rw [String.data_append, String.data_append, hd1, hd2]
    unfold _setup_download_dir
    simp only [List.length_append, String.data_append]
    rw [strftimeTimestamp_length t1 h1, strftimeTimestamp_length t2 h2]
  have hpre := List.prefix_of_prefix_length_le hw1 hw2 (le_of_eq hlen)
  have heq := hpre.eq_of_length hlen
  rw [String.data_append, String.data_append] at heq
  have hdir : d1.download_dir.data = d2.download_dir.data :=
    (List.append_inj heq (by
      rw [hd1, hd2]
      unfold _setup_download_dir
      simp only [String.data_append, List.length_append]
      rw [strftimeTimestamp_length t1 h1, strftimeTimestamp_length t2 h2])).1
  exact hdirne (by rw [← hd1, ← hd2]; exact String.ext hdir)

/-- Witness for the amended C7: the fixture runs one second apart. -/
theorem c7_second_distinct_runs_never_collide_witness :
    t1fix.Valid ∧ t2fix.Valid ∧
    (t1fix.year, t1fix.month, t1fix.day, t1fix.hour, t1fix.minute, t1fix.second) ≠
      (t2fix.year, t2fix.month, t2fix.day, t2fix.hour, t2fix.minute, t2fix.second) ∧
    dFix.download_dir = (_setup_download_dir t1fix fs0).1 ∧
    dFix2.download_dir = (_setup_download_dir t2fix fs0).1 ∧
    ((_setup_download_dir t1fix fs0).1 ≠ (_setup_download_dir t2fix fs0).1 ∧
     ∀ p c1 c2, Event.fileWrite p c1 ∈ (process_all_applications dFix oracleFix t1fix fs0).2 →
       Event.fileWrite p c2 ∈ (process_all_applications dFix2 oracleFix t2fix fs0).2 → False) :=
  ⟨by decide, by decide, by decide, rfl, rfl,
    c7_second_distinct_runs_never_collide t1fix t2fix (by decide) (by decide) (by decide)
      fs0 fs0 dFix dFix2 oracleFix oracleFix t1fix t2fix rfl rfl⟩

/-! ## Filesystem growth and directory creation time (C8) -/

/-- The growth order is reflexive. -/
theorem FS.le_refl (fs : FS) : FS.le fs fs :=
  ⟨fun _ h => h, fun _ h => h⟩

/-- The growth order is transitive. -/
theorem FS.le_trans {a b c : FS} (h1 : FS.le a b) (h2 : FS.le b c) : FS.le a c :=
  ⟨fun p h => h2.1 p (h1.1 p h), fun p h => h2.2 p (h1.2 p h)⟩

/-- Creating a directory only grows the filesystem. -/
theorem FS.le_mkdirs (fs : FS) (p : String) : FS.le fs (fs.mkdirs p) := by
  constructor
  · intro q h
    simp [FS.hasDir, FS.mkdirs] at h ⊢
    exact Or.inr h
  · intro q h
    simpa [FS.read, FS.mkdirs] using h

/-- Writing a file only grows the filesystem (an overwrite replaces
content, it never removes the path). -/
theorem FS.le_write (fs : FS) (p c : String) : FS.le fs (fs.write p c) := by
  constructor
  · intro q h
    simpa [FS.hasDir, FS.write] using h
  · intro q h
    by_cases hpq : p = q <;> simp [FS.read, FS.write, List.find?, hpq] at h ⊢
    exact h

/-- A download only grows the filesystem. -/
theorem download_application_fs_le (d : Downloader) (o : NetOracle) (fs : FS)
    (n f : String) : FS.le fs ((download_application d o fs n f).2.1) := by
  unfold download_application
  rcases o.downloadResponse n f with m | ⟨chunks, merr⟩
  · by_cases hlog : d.enable_endpoint_logging <;> simp [hlog] <;>
      exact FS.le_mkdirs fs _
  · cases merr <;> by_cases hlog : d.enable_endpoint_logging <;> simp [hlog] <;>
      exact FS.le_trans (FS.le_mkdirs fs _) (FS.le_write _ _ _)

/-- An iteration only grows the filesystem. -/
theorem processStep_fs_le (d : Downloader) (o : NetOracle) (total : Nat)
    (a : Json) (index : Nat) (fs : FS) (evs : List Event) (fs1 : FS)
    (hstep : processStep d o total a index fs = .ok (evs, fs1)) :
    FS.le fs fs1 := by
  unfold processStep at hstep
  cases hdom : a.dictGet "domain" with
  | error e => rw [hdom] at hstep; simp at hstep
  | ok v =>
      rw [hdom] at hstep
      cases htr : v.truthy with
      | false =>
          simp only [htr, Bool.not_false, if_true, Except.ok.injEq, Prod.mk.injEq] at hstep
          rw [← hstep.2]
          exact FS.le_refl fs
      | true =>
          simp only [htr, Bool.not_true, Bool.false_eq_true, if_false] at hstep
          rcases hgi : get_application_info d o (pyStr v) with ⟨res, evI⟩
          rw [hgi] at hstep
          cases res with
          | error e =>
              simp only [Except.ok.injEq, Prod.mk.injEq] at hstep
              rw [← hstep.2]
              exact FS.le_refl fs
          | ok app_info =>
              cases hfn : app_info.dictGet "filename" with
              | error e =>
                  simp only [hfn, Except.ok.injEq, Prod.mk.injEq] at hstep
                  rw [← hstep.2]
                  exact FS.le_refl fs
              | ok fileV =>
                  cases hfv : fileV.truthy with
                  | false =>
                      simp only [hfn, hfv, Bool.not_false, if_true,
                        Except.ok.injEq, Prod.mk.injEq] at hstep
                      rw [← hstep.2]
                      exact FS.le_refl fs
                  | true =>
                      simp only [hfn, hfv, Bool.not_true, Bool.false_eq_true, if_false,
                        Except.ok.injEq, Prod.mk.injEq] at hstep
                      rw [← hstep.2]
                      exact download_application_fs_le d o fs (pyStr v) (pyStr fileV)

/-- The loop only grows the filesystem. -/
theorem processLoop_fs_le (d : Downloader) (o : NetOracle) (total : Nat)
    (l : List Json) (index : Nat) (fs : FS) :
    FS.le fs ((processLoop d o total l index fs).1) := by
  induction l generalizing index fs with
  | nil => exact FS.le_refl fs
  | cons a l ih =>
      cases hstep : processStep d o total a index fs with
      | error e =>
          rw [processLoop_cons_error d o total a l index fs e hstep]
          exact FS.le_refl fs
      | ok p =>
          obtain ⟨evs, fs1⟩ := p
          rw [processLoop_cons_ok d o total a l index fs evs fs1 hstep]
          exact FS.le_trans (processStep_fs_le d o total a index fs evs fs1 hstep)
            (ih (index + 1) fs1)

/-- The whole batch run only grows the filesystem: nothing is ever
cleaned up. -/
theorem process_all_applications_fs_le (d : Downloader) (o : NetOracle) (t : DateTime)
    (fs : FS) : FS.le fs ((process_all_applications d o t fs).1) := by
  unfold process_all_applications
  rcases hga : get_applications d o with ⟨ra, evL⟩
  cases ra with
  | error e => exact FS.le_refl fs
  | ok applications =>
      dsimp only
      cases hlen : pyLen applications with
      | error e => exact FS.le_refl fs
      | ok total_apps =>
          dsimp only
          cases hit : pyIter applications with
          | error e => exact FS.le_write fs _ _
          | ok elems =>
              dsimp only
              have hloop := processLoop_fs_le d o total_apps elems 1
                (fs.write
                  (pathJoin d.download_dir
                    ("applications_list_" ++ strftimeTimestamp t ++ ".json"))
                  (dumps applications))
              rcases hr : processLoop d o total_apps elems 1
                  (fs.write
                    (pathJoin d.download_dir
                      ("applications_list_" ++ strftimeTimestamp t ++ ".json"))
                    (dumps applications)) with ⟨fs2, ev2, ab⟩
              rw [hr] at hloop
              simp only at hloop
              have hgrow := FS.le_trans (FS.le_write fs
                (pathJoin d.download_dir
                  ("applications_list_" ++ strftimeTimestamp t ++ ".json"))
                (dumps applications)) hloop
              cases ab <;> exact hgrow

/-- **C8 (counterexample).** The top-level run directory does *not* come
into existence only when first needed by the pipeline: on a concrete
successful construction, `__init__` itself creates it (the `mkdir`
event is in the construction trace, which contains no pipeline `GET` at
all) even though `process_all_applications` is never invoked. -/
theorem c8_created_at_startup_counterexample :
    (init envOk oracleFix t1fix fs0).1 = .ok dFix ∧
    Event.mkdir ("downloads_" ++ strftimeTimestamp t1fix) ∈
      (init envOk oracleFix t1fix fs0).2.2 ∧
    (init envOk oracleFix t1fix fs0).2.1.hasDir ("downloads_" ++ strftimeTimestamp t1fix) = true ∧
    ∀ call url hdrs, Event.httpGet call url hdrs ∉ (init envOk oracleFix t1fix fs0).2.2 := by
  have hinit : init envOk oracleFix t1fix fs0 =
      (.ok dFix, fs0.mkdirs ("downloads_" ++ strftimeTimestamp t1fix),
       [Event.printed "\nUsing control plane: us",
        Event.printed "Base URL: https://anypoint.mulesoft.com/cloudhub/api",
        Event.printed
          "\nCalling authentication endpoint: https://anypoint.mulesoft.com/accounts/api/v2/oauth2/token",
        Event.httpPost "https://anypoint.mulesoft.com/accounts/api/v2/oauth2/token"
          [("grant_type", "client_credentials"), ("client_id", "my-id"),
           ("client_secret", "my-secret")],
        Event.mkdir ("downloads_" ++ strftimeTimestamp t1fix)]) := rfl
  rw [hinit]
  refine ⟨rfl, by simp, by simp [FS.hasDir, FS.mkdirs], ?_⟩
  intro call url hdrs hmem
  simp at hmem

/-- **C8 (amended).** The top-level run directory is created
unconditionally during initialization (right after authentication
succeeds, before any pipeline request is issued — the construction
trace holds the `mkdir` but no HTTP `GET`), and nothing is ever cleaned
up: the batch only grows the filesystem. -/
theorem c8_dir_created_at_init_and_never_removed (env : Env) (o : NetOracle) (t : DateTime)
    (fs : FS) (d : Downloader) (fs1 : FS) (ev : List Event)
    (hinit : init env o t fs = (.ok d, fs1, ev)) :
    Event.mkdir d.download_dir ∈ ev ∧
    fs1.hasDir d.download_dir = true ∧
    (∀ call url hdrs, Event.httpGet call url hdrs ∉ ev) ∧
    (∀ t2 fs2, FS.le fs2 ((process_all_applications d o t2 fs2).1)) := by
  unfold init at hinit
  cases hlc : _load_config env with
  | error e => rw [hlc] at hinit; simp at hinit
  | ok lc =>
      rw [hlc] at hinit
      dsimp only at hinit
      rcases hsb : _setup_base_urls lc with ⟨rb, evB⟩
      rw [hsb] at hinit
      cases rb with
      | error e => simp at hinit
      | ok urls =>
          obtain ⟨auth_url, base_url⟩ := urls
          dsimp only at hinit
          rcases hss : _setup_session lc auth_url o with ⟨rs, evS⟩
          rw [hss] at hinit
          cases rs with
          | error e => simp at hinit
          | ok headers =>
              dsimp only [_setup_download_dir] at hinit
              have hevB : evB = (if lc.enable_endpoint_logging then
                  [Event.printed ("\nUsing control plane: " ++ lc.control_plane),
                   Event.printed ("Base URL: " ++
                     ("https://" ++ (control_plane_domains.find?
                        (fun p => p.1 = lc.control_plane)).elim "" (fun p => p.2) ++
                       "/cloudhub/api"))]
                 else []) ∨ (∀ e ∈ evB, ∃ m, e = Event.printed m) := by
                unfold _setup_base_urls at hsb
                cases hfd : control_plane_domains.find? (fun p => p.1 = lc.control_plane) with
                | none => rw [hfd] at hsb; simp at hsb
                | some p =>
                    rw [hfd] at hsb
                    simp only [Prod.mk.injEq] at hsb
                    right
                    rw [← hsb.2]
                    by_cases hlog : lc.enable_endpoint_logging <;> simp [hlog]
              have hevS : ∀ call url hdrs, Event.httpGet call url hdrs ∉ evS := by
                unfold _setup_session at hss
                cases har : o.authResponse with
                | error m => rw [har] at hss; simp at hss
                | ok body =>
                    rw [har] at hss
                    dsimp only at hss
                    cases hix : body.index "access_token" with
                    | error e => rw [hix] at hss; simp at hss
                    | ok tokenV =>
                        rw [hix] at hss
                        simp only [Prod.mk.injEq, Except.ok.injEq] at hss
                        intro call url hdrs
                        rw [← hss.2]
                        by_cases hlog : lc.enable_endpoint_logging <;> simp [hlog]
              have hevBp : ∀ call url hdrs, Event.httpGet call url hdrs ∉ evB := by
                rcases hevB with hevB | hevB
                · subst hevB
                  intro call url hdrs
                  by_cases hlog : lc.enable_endpoint_logging <;> simp [hlog]
                · intro call url hdrs hmem
                  obtain ⟨m, hm⟩ := hevB _ hmem
                  cases hm
              simp only [Prod.mk.injEq, Except.ok.injEq] at hinit
              obtain ⟨hd, hfs, hev⟩ := hinit
              refine ⟨?_, ?_, ?_, ?_⟩
              · rw [← hev, ← hd]
                simp
              · rw [← hfs, ← hd]
                simp [FS.hasDir, FS.mkdirs]
              · intro call url hdrs hmem
                rw [← hev] at hmem
                simp only [List.mem_append, List.mem_singleton] at hmem
                rcases hmem with (hmem | hmem) | hmem
                · exact hevBp call url hdrs hmem
                · exact hevS call url hdrs hmem
                · cases hmem
              · intro t2 fs2
                exact process_all_applications_fs_le d o t2 fs2

/-- Witness for the amended C8 at the concrete fixture construction. -/
theorem c8_dir_created_at_init_and_never_removed_witness :
    init envOk oracleFix t1fix fs0 =
      (.ok dFix, fs0.mkdirs ("downloads_" ++ strftimeTimestamp t1fix),
       [Event.printed "\nUsing control plane: us",
        Event.printed "Base URL: https://anypoint.mulesoft.com/cloudhub/api",
        Event.printed
          "\nCalling authentication endpoint: https://anypoint.mulesoft.com/accounts/api/v2/oauth2/token",
        Event.httpPost "https://anypoint.mulesoft.com/accounts/api/v2/oauth2/token"
          [("grant_type", "client_credentials"), ("client_id", "my-id"),
           ("client_secret", "my-secret")],
        Event.mkdir ("downloads_" ++ strftimeTimestamp t1fix)]) ∧
    (Event.mkdir dFix.download_dir ∈
       [Event.printed "\nUsing control plane: us",
        Event.printed "Base URL: https://anypoint.mulesoft.com/cloudhub/api",
        Event.printed
          "\nCalling authentication endpoint: https://anypoint.mulesoft.com/accounts/api/v2/oauth2/token",
        Event.httpPost "https://anypoint.mulesoft.com/accounts/api/v2/oauth2/token"
          [("grant_type", "client_credentials"), ("client_id", "my-id"),
           ("client_secret", "my-secret")],
        Event.mkdir ("downloads_" ++ strftimeTimestamp t1fix)] ∧
     (fs0.mkdirs ("downloads_" ++ strftimeTimestamp t1fix)).hasDir dFix.download_dir = true ∧
     (∀ call url hdrs, Event.httpGet call url hdrs ∉
       [Event.printed "\nUsing control plane: us",
        Event.printed "Base URL: https://anypoint.mulesoft.com/cloudhub/api",
        Event.printed
          "\nCalling authentication endpoint: https://anypoint.mulesoft.com/accounts/api/v2/oauth2/token",
        Event.httpPost "https://anypoint.mulesoft.com/accounts/api/v2/oauth2/token"
          [("grant_type", "client_credentials"), ("client_id", "my-id"),
           ("client_secret", "my-secret")],
        Event.mkdir ("downloads_" ++ strftimeTimestamp t1fix)]) ∧
     (∀ t2 fs2, FS.le fs2 ((process_all_applications dFix oracleFix t2 fs2).1))) :=
  ⟨rfl, c8_dir_created_at_init_and_never_removed envOk oracleFix t1fix fs0 dFix _ _ rfl⟩


/-! ## The serialiser/parser round trip (C6): strings -/

/-- `hexVal` reads `digitChar` back. -/
theorem hexVal_digitChar (k : Nat) (h : k < 16) : hexVal (Nat.digitChar k) = some k := by
  interval_cases k <;> decide

/-- Unicode scalar values avoid the surrogate block. -/
theorem char_toNat_cases (c : Char) :
    c.toNat < 0xD800 ∨ (0xE000 ≤ c.toNat ∧ c.toNat < 0x110000) := by
  rcases c.valid with h | ⟨h1, h2⟩
  · left; exact h
  · right; exact ⟨h1, h2⟩

/-- A two-character escape decodes through the escape table. -/
theorem parseEsc_twoChar (e c2 : Char) (cs : List Char) (h : escMap e = some c2) :
    parseEsc (e :: cs) = some (c2, cs) := by
  have he : e ≠ 'u' := by
    intro h2
    subst h2
    simp [escMap] at h
  simp [parseEsc, he, h]

/-- A `\uXXXX` unit outside the surrogate block decodes to its scalar. -/
theorem parseEsc_u (n : Nat) (cont : List Char) (h1 : n < 0x10000)
    (hs1 : ¬(0xD800 ≤ n ∧ n < 0xDC00)) (hs2 : ¬(0xDC00 ≤ n ∧ n < 0xE000)) :
    parseEsc ('u' :: (hex4 n ++ cont)) = some (Char.ofNat n, cont) := by
  have hd1 : n / 4096 % 16 < 16 := Nat.mod_lt _ (by omega)
  have hd2 : n / 256 % 16 < 16 := Nat.mod_lt _ (by omega)
  have hd3 : n / 16 % 16 < 16 := Nat.mod_lt _ (by omega)
  have hd4 : n % 16 < 16 := Nat.mod_lt _ (by omega)
  have hrec : 4096 * (n / 4096 % 16) + 256 * (n / 256 % 16) +
      16 * (n / 16 % 16) + n % 16 = n := by omega
  simp only [hex4, List.cons_append, List.nil_append, parseEsc,
    hexVal_digitChar _ hd1, hexVal_digitChar _ hd2, hexVal_digitChar _ hd3,
    hexVal_digitChar _ hd4, hrec]
  simp [hs1, hs2]

/-- A surrogate pair decodes to the astral scalar it encodes. -/
theorem parseEsc_surrogates (hi lo : Nat) (cont : List Char)
    (hhi : 0xD800 ≤ hi ∧ hi < 0xDC00) (hlo : 0xDC00 ≤ lo ∧ lo < 0xE000) :
    parseEsc ('u' :: (hex4 hi ++ '\\' :: 'u' :: hex4 lo ++ cont)) =
      some (Char.ofNat (0x10000 + (hi - 0xD800) * 0x400 + (lo - 0xDC00)), cont) := by
  have e1 : hi / 4096 % 16 < 16 := Nat.mod_lt _ (by omega)
  have e2 : hi / 256 % 16 < 16 := Nat.mod_lt _ (by omega)
  have e3 : hi / 16 % 16 < 16 := Nat.mod_lt _ (by omega)
  have e4 : hi % 16 < 16 := Nat.mod_lt _ (by omega)
  have f1 : lo / 4096 % 16 < 16 := Nat.mod_lt _ (by omega)
  have f2 : lo / 256 % 16 < 16 := Nat.mod_lt _ (by omega)
  have f3 : lo / 16 % 16 < 16 := Nat.mod_lt _ (by omega)
  have f4 : lo % 16 < 16 := Nat.mod_lt _ (by omega)
  have hrhi : 4096 * (hi / 4096 % 16) + 256 * (hi / 256 % 16) +
      16 * (hi / 16 % 16) + hi % 16 = hi := by omega
  have hrlo : 4096 * (lo / 4096 % 16) + 256 * (lo / 256 % 16) +
      16 * (lo / 16 % 16) + lo % 16 = lo := by omega
  simp only [hex4, List.cons_append, List.nil_append, parseEsc,
    hexVal_digitChar _ e1, hexVal_digitChar _ e2, hexVal_digitChar _ e3,
    hexVal_digitChar _ e4, hexVal_digitChar _ f1, hexVal_digitChar _ f2,
    hexVal_digitChar _ f3, hexVal_digitChar _ f4, hrhi, hrlo]
  simp [hhi, hlo]

/-- The closing quote ends the body. -/
theorem parseStringBody_quote (cs : List Char) :
    parseStringBody ('"' :: cs) = some ([], cs) := by
  rw [parseStringBody.eq_def]
  simp

/-- One backslash step. -/
theorem parseStringBody_esc (cs rest s r : List Char) (ch : Char)
    (hesc : parseEsc cs = some (ch, rest))
    (hrest : parseStringBody rest = some (s, r)) :
    parseStringBody ('\\' :: cs) = some (ch :: s, r) := by
  rw [parseStringBody.eq_def]
  simp only []
  rw [if_neg (show ¬('\\' : Char) = '"' by decide)]
  rw [if_pos trivial]
  split
  · rename_i ch2 rest2 h2
    rw [hesc] at h2
    injection h2 with h3
    injection h3 with h4 h5
    subst h4
    subst h5
    rw [hrest]
  · rename_i h2
    rw [hesc] at h2
    cases h2

/-- One plain-character step. -/
theorem parseStringBody_plain (c : Char) (cs s r : List Char)
    (h1 : c ≠ '"') (h2 : c ≠ '\\') (h3 : ¬c.toNat < 0x20)
    (hcs : parseStringBody cs = some (s, r)) :
    parseStringBody (c :: cs) = some (c :: s, r) := by
  rw [parseStringBody.eq_def]
  simp [h1, h2, h3, hcs]

/-- Reading one escaped character back. -/
theorem parseStringBody_escapeChar (c : Char) (cont s r : List Char)
    (hcont : parseStringBody cont = some (s, r)) :
    parseStringBody (escapeChar c ++ cont) = some (c :: s, r) := by
  unfold escapeChar
  by_cases h1 : c = '"'
  · subst h1
    simpa using parseStringBody_esc _ _ _ _ _ (parseEsc_twoChar '"' '"' cont (by decide)) hcont
  · by_cases h2 : c = '\\'
    · subst h2
      simpa [h1] using
        parseStringBody_esc _ _ _ _ _ (parseEsc_twoChar '\\' '\\' cont (by decide)) hcont
    · by_cases h3 : c = '\n'
      · subst h3
        simpa [h1, h2] using
          parseStringBody_esc _ _ _ _ _ (parseEsc_twoChar 'n' '\n' cont (by decide)) hcont
      · by_cases h4 : c = '\t'
        · subst h4
          simpa [h1, h2, h3] using
            parseStringBody_esc _ _ _ _ _ (parseEsc_twoChar 't' '\t' cont (by decide)) hcont
        · by_cases h5 : c = '\r'
          · subst h5
            simpa [h1, h2, h3, h4] using
              parseStringBody_esc _ _ _ _ _ (parseEsc_twoChar 'r' '\r' cont (by decide)) hcont
          · by_cases h6 : c = '\x08'
            · subst h6
              simpa [h1, h2, h3, h4, h5] using
                parseStringBody_esc _ _ _ _ _
                  (parseEsc_twoChar 'b' '\x08' cont (by decide)) hcont
            · by_cases h7 : c = '\x0c'
              · subst h7
                simpa [h1, h2, h3, h4, h5, h6] using
                  parseStringBody_esc _ _ _ _ _
                    (parseEsc_twoChar 'f' '\x0c' cont (by decide)) hcont
              · by_cases h8 : 0x20 ≤ c.toNat ∧ c.toNat ≤ 0x7e
                · have hne1 : c ≠ '"' := h1
                  have hne2 : c ≠ '\\' := h2
                  have hlt : ¬c.toNat < 0x20 := by omega
                  simp only [h1, h2, h3, h4, h5, h6, h7, h8, if_false, if_true,
                    if_neg, if_pos, List.cons_append, List.nil_append]
                  exact parseStringBody_plain c cont s r hne1 hne2 hlt hcont
                · by_cases h9 : c.toNat < 0x10000
                  · have hsur : ¬(0xD800 ≤ c.toNat ∧ c.toNat < 0xDC00) ∧
                        ¬(0xDC00 ≤ c.toNat ∧ c.toNat < 0xE000) := by
                      rcases char_toNat_cases c with h | ⟨ha, hb⟩ <;> omega
                    have hu := parseEsc_u c.toNat cont h9 hsur.1 hsur.2
                    rw [Char.ofNat_toNat] at hu
                    simp only [h1, h2, h3, h4, h5, h6, h7, h8, h9, if_false, if_true,
                      List.cons_append]
                    exact parseStringBody_esc _ _ _ _ _ hu hcont
                  · have hup : c.toNat < 0x110000 := by
                      rcases char_toNat_cases c with h | ⟨ha, hb⟩ <;> omega
                    have hhi : 0xD800 ≤ 0xD800 + (c.toNat - 0x10000) / 0x400 ∧
                        0xD800 + (c.toNat - 0x10000) / 0x400 < 0xDC00 := by
                      constructor
                      · omega
                      · have : (c.toNat - 0x10000) / 0x400 < 0x400 :=
                          Nat.div_lt_of_lt_mul (by omega)
                        omega
                    have hlo : 0xDC00 ≤ 0xDC00 + (c.toNat - 0x10000) % 0x400 ∧
                        0xDC00 + (c.toNat - 0x10000) % 0x400 < 0xE000 := by
                      have := Nat.mod_lt (c.toNat - 0x10000) (show 0 < 0x400 by omega)
                      omega
                    have hu := parseEsc_surrogates (0xD800 + (c.toNat - 0x10000) / 0x400)
                      (0xDC00 + (c.toNat - 0x10000) % 0x400) cont hhi hlo
                    have hcomb : 0x10000 +
                        ((0xD800 + (c.toNat - 0x10000) / 0x400) - 0xD800) * 0x400 +
                        ((0xDC00 + (c.toNat - 0x10000) % 0x400) - 0xDC00) = c.toNat := by
                      omega
                    rw [hcomb, Char.ofNat_toNat] at hu
                    simp only [h1, h2, h3, h4, h5, h6, h7, h8, h9, if_false, if_true,
                      List.cons_append, List.append_assoc, List.nil_append]
                    exact parseStringBody_esc _ _ _ _ _ hu hcont

/-- Reading an escaped string body back, up to the closing quote. -/
theorem parseStringBody_escapeList (s rest : List Char) :
    parseStringBody (escapeList s ++ '"' :: rest) = some (s, rest) := by
  induction s with
  | nil => simpa [escapeList] using parseStringBody_quote rest
  | cons c cs ih =>
      have := parseStringBody_escapeChar c (escapeList cs ++ '"' :: rest) cs rest ih
      simpa [escapeList, List.append_assoc] using this


/-! ## The round trip (C6): whitespace, numbers, dict building -/

/-- `newlineIndent` is all whitespace. -/
theorem newlineIndent_ws (ind : Nat) : ∀ c ∈ newlineIndent ind, isWsChar c = true := by
  intro c hc
  simp only [newlineIndent, List.mem_cons, List.mem_replicate] at hc
  rcases hc with h | ⟨_, h⟩ <;> subst h <;> decide

/-- Length of the indentation run. -/
theorem newlineIndent_length (ind : Nat) : (newlineIndent ind).length = ind + 1 := by
  simp [newlineIndent]

/-- `skipWs` drops a whitespace prefix whole. -/
theorem skipWs_ws_append (l cs : List Char) (h : ∀ c ∈ l, isWsChar c = true) :
    skipWs (l ++ cs) = skipWs cs := by
  induction l with
  | nil => rfl
  | cons c l ih =>
      have hc : isWsChar c = true := h c (List.mem_cons_self c l)
      simp only [List.cons_append, skipWs, hc, if_true]
      exact ih (fun c2 hc2 => h c2 (List.mem_cons_of_mem c hc2))

/-- `skipWs` keeps a non-whitespace head. -/
theorem skipWs_cons_false (c : Char) (cs : List Char) (h : isWsChar c = false) :
    skipWs (c :: cs) = c :: cs := by
  simp [skipWs, h]

/-- A run satisfying `p` followed by a non-`p` head is the maximal take. -/
theorem takeWhile_append_all (p : Char → Bool) (l1 l2 : List Char)
    (h1 : ∀ c ∈ l1, p c = true) (h2 : ∀ c, l2.head? = some c → p c = false) :
    (l1 ++ l2).takeWhile p = l1 := by
  induction l1 with
  | nil =>
      cases l2 with
      | nil => rfl
      | cons c cs =>
          simp only [List.nil_append, List.takeWhile_cons, h2 c rfl]
          simp
  | cons c l ih =>
      have hc : p c = true := h1 c (List.mem_cons_self c l)
      simp only [List.cons_append, List.takeWhile_cons, hc, if_true]
      rw [ih (fun c2 hc2 => h1 c2 (List.mem_cons_of_mem c hc2))]

/-- The number reader reads rendered digits back. -/
theorem parseNatNum_natDigits (n : Nat) (rest : List Char)
    (h : ∀ c, rest.head? = some c → c.isDigit = false) :
    parseNatNum (natDigits n ++ rest) = some (n, rest) := by
  have htake := takeWhile_append_all (fun c => c.isDigit) (natDigits n) rest
    (natDigits_all_digit n) h
  have hne := natDigits_ne_nil n
  simp only [parseNatNum, htake]
  rw [if_neg (by simp [hne])]
  rw [digitsVal_natDigits]
  rw [List.drop_left]

/-- `parseVal` ignores leading whitespace. -/
theorem parseVal_wsPre (fuel : Nat) (l cs : List Char) (h : ∀ c ∈ l, isWsChar c = true) :
    parseVal fuel (l ++ cs) = parseVal fuel cs := by
  cases fuel with
  | zero => rfl
  | succ fuel =>
      simp only [parseVal]
      rw [skipWs_ws_append l cs h]

/-- `parseArrItems` ignores leading whitespace. -/
theorem parseArrItems_wsPre (fuel : Nat) (l cs : List Char)
    (h : ∀ c ∈ l, isWsChar c = true) :
    parseArrItems fuel (l ++ cs) = parseArrItems fuel cs := by
  cases fuel with
  | zero => rfl
  | succ fuel =>
      simp only [parseArrItems]
      rw [skipWs_ws_append l cs h]
      rw [parseVal_wsPre fuel l cs h]

/-- `parseObjItems` ignores leading whitespace. -/
theorem parseObjItems_wsPre (fuel : Nat) (l cs : List Char)
    (h : ∀ c ∈ l, isWsChar c = true) :
    parseObjItems fuel (l ++ cs) = parseObjItems fuel cs := by
  cases fuel with
  | zero => rfl
  | succ fuel =>
      simp only [parseObjItems]
      rw [skipWs_ws_append l cs h]

/-- Decimal digit characters pass none of the other dispatch tests. -/
theorem digitChar_facts (k : Nat) (h : k < 10) :
    (Nat.digitChar k).isDigit = true ∧ isWsChar (Nat.digitChar k) = false ∧
      Nat.digitChar k ≠ 'n' ∧ Nat.digitChar k ≠ 't' ∧ Nat.digitChar k ≠ 'f' ∧
      Nat.digitChar k ≠ '"' ∧ Nat.digitChar k ≠ '-' ∧ Nat.digitChar k ≠ ']' := by
  interval_cases k <;> decide

/-- The same facts for every rendered digit. -/
theorem natDigits_facts (n : Nat) :
    ∀ c ∈ natDigits n, c.isDigit = true ∧ isWsChar c = false ∧
      c ≠ 'n' ∧ c ≠ 't' ∧ c ≠ 'f' ∧ c ≠ '"' ∧ c ≠ '-' ∧ c ≠ ']' := by
  induction n using Nat.strong_induction_on with
  | _ n ih =>
      unfold natDigits
      split
      · rename_i h
        intro c hc
        simp only [List.mem_singleton] at hc
        subst hc
        exact digitChar_facts n h
      · rename_i h
        intro c hc
        rw [List.mem_append] at hc
        rcases hc with hc | hc
        · exact ih (n / 10) (Nat.div_lt_self (by omega) (by omega)) c hc
        · simp only [List.mem_singleton] at hc
          subst hc
          exact digitChar_facts (n % 10) (Nat.mod_lt _ (by omega))

/-- A rendered value starts with a non-whitespace character other than
the array close. -/
theorem renderJson_head (ind : Nat) (j : Json) :
    ∃ c cs2, renderJson ind j = c :: cs2 ∧ isWsChar c = false ∧ c ≠ ']' := by
  cases j with
  | null =>
      refine ⟨'n', ['u', 'l', 'l'], ?_, by decide, by decide⟩
      simp only [renderJson]
  | bool b =>
      cases b
      · refine ⟨'f', ['a', 'l', 's', 'e'], ?_, by decide, by decide⟩
        simp only [renderJson]
      · refine ⟨'t', ['r', 'u', 'e'], ?_, by decide, by decide⟩
        simp only [renderJson]
  | num n =>
      simp only [renderJson]
      unfold intRender
      by_cases hn : n < 0
      · rw [if_pos hn]
        exact ⟨'-', natDigits n.natAbs, rfl, by decide, by decide⟩
      · rw [if_neg hn]
        rcases hne : natDigits n.natAbs with _ | ⟨c, cs⟩
        · exact absurd hne (natDigits_ne_nil _)
        · have hf := natDigits_facts n.natAbs c (by rw [hne]; exact List.mem_cons_self c cs)
          exact ⟨c, cs, rfl, hf.2.1, hf.2.2.2.2.2.2.2⟩
  | str s =>
      simp only [renderJson]
      exact ⟨'"', escapeList s.data ++ ['"'], rfl, by decide, by decide⟩
  | arr l =>
      cases l with
      | nil =>
          refine ⟨'[', [']'], ?_, by decide, by decide⟩
          simp only [renderJson]
      | cons x xs =>
          simp only [renderJson]
          exact ⟨'[', _, rfl, by decide, by decide⟩
  | obj l =>
      cases l with
      | nil =>
          refine ⟨'\x7b', ['\x7d'], ?_, by decide, by decide⟩
          simp only [renderJson]
      | cons p ps =>
          simp only [renderJson]
          exact ⟨'\x7b', _, rfl, by decide, by decide⟩

/-- What follows a rendered array element never starts with a digit. -/
theorem numDelim_elems (ind ind0 : Nat) (xs : List Json) (rest : List Char) :
    NumDelim (renderElems ind xs ++ (newlineIndent ind0 ++ (']' :: rest))) := by
  cases xs with
  | nil =>
      intro c hc
      simp only [renderElems, List.nil_append, newlineIndent, List.cons_append,
        List.head?_cons, Option.some.injEq] at hc
      subst hc
      rfl
  | cons x xs =>
      intro c hc
      simp only [renderElems, List.cons_append, List.head?_cons, Option.some.injEq] at hc
      subst hc
      rfl

/-- What follows a rendered object member never starts with a digit. -/
theorem numDelim_fields (ind ind0 : Nat) (ps : List (String × Json)) (rest : List Char) :
    NumDelim (renderFields ind ps ++ (newlineIndent ind0 ++ ('\x7d' :: rest))) := by
  cases ps with
  | nil =>
      intro c hc
      simp only [renderFields, List.nil_append, newlineIndent, List.cons_append,
        List.head?_cons, Option.some.injEq] at hc
      subst hc
      rfl
  | cons p ps =>
      intro c hc
      simp only [renderFields, List.cons_append, List.head?_cons, Option.some.injEq] at hc
      subst hc
      rfl

/-- Inserting a fresh key appends. -/
theorem dictInsert_fresh (d : List (String × Json)) (k : String) (v : Json)
    (h : ∀ q ∈ d, q.1 ≠ k) : dictInsert d k v = d ++ [(k, v)] := by
  have hany : d.any (fun p => p.1 = k) = false := by
    rw [List.any_eq_false]
    intro p hp
    simp only [decide_eq_true_eq]
    exact h p hp
  simp [dictInsert, hany]

/-- Folding `dictInsert` over distinct keys appends them in order. -/
theorem foldl_dictInsert_fresh (ps : List (String × Json)) :
    ∀ acc, keysNodupB ps = true → (∀ p ∈ ps, ∀ q ∈ acc, q.1 ≠ p.1) →
      List.foldl (fun d m => dictInsert d m.1 m.2) acc ps = acc ++ ps := by
  induction ps with
  | nil =>
      intro acc _ _
      simp
  | cons p ps ih =>
      intro acc hnd hdisj
      have hnd1 : ps.any (fun q => q.1 == p.1) = false ∧ keysNodupB ps = true := by
        simp only [keysNodupB, Bool.and_eq_true, Bool.not_eq_true'] at hnd
        exact hnd
      simp only [List.foldl_cons]
      rw [dictInsert_fresh acc p.1 p.2 (fun q hq => hdisj p (List.mem_cons_self p ps) q hq)]
      have hdisj2 : ∀ r ∈ ps, ∀ q ∈ acc ++ [(p.1, p.2)], q.1 ≠ r.1 := by
        intro r hr q hq
        rcases List.mem_append.mp hq with hq | hq
        · exact hdisj r (List.mem_cons_of_mem p hr) q hq
        · simp only [List.mem_singleton] at hq
          subst hq
          intro he
          have h2 := (List.any_eq_false.mp hnd1.1) r hr
          simp only [beq_iff_eq] at h2
          exact h2 he.symm
      rw [ih (acc ++ [(p.1, p.2)]) hnd1.2 hdisj2]
      simp

/-- On duplicate-free members the parser's dict is the member list. -/
theorem mkDict_nodup (ps : List (String × Json)) (h : keysNodupB ps = true) :
    mkDict ps = ps := by
  have hr := foldl_dictInsert_fresh ps [] h (fun p _ q hq => absurd hq (List.not_mem_nil q))
  simpa [mkDict] using hr

/-! ## The round trip (C6): fuel bounds -/

/-- Chain fuel for the rendered tail of an array. -/
theorem needList_le_render (xs : List Json) (ind : Nat)
    (h : ∀ x ∈ xs, ∀ i, needVal x ≤ (renderJson i x).length + 1) :
    needList xs ≤ (renderElems ind xs).length + 2 := by
  induction xs with
  | nil =>
      simp only [needList, renderElems]
      omega
  | cons x xs ih =>
      have h1 := h x (List.mem_cons_self x xs) ind
      have h2 := ih (fun y hy i => h y (List.mem_cons_of_mem x hy) i)
      simp only [needList, renderElems, List.length_cons, List.length_append,
        newlineIndent_length]
      rcases Nat.le_total (needVal x) (needList xs) with hle | hle
      · rw [Nat.max_eq_right hle]
        omega
      · rw [Nat.max_eq_left hle]
        omega

/-- Chain fuel for the rendered tail of an object. -/
theorem needFields_le_render (ps : List (String × Json)) (ind : Nat)
    (h : ∀ p ∈ ps, ∀ i, needVal (p : String × Json).2 ≤ (renderJson i p.2).length + 1) :
    needFields ps ≤ (renderFields ind ps).length + 2 := by
  induction ps with
  | nil =>
      simp only [needFields, renderFields]
      omega
  | cons p ps ih =>
      have h1 := h p (List.mem_cons_self p ps) ind
      have h2 := ih (fun q hq i => h q (List.mem_cons_of_mem p hq) i)
      simp only [needFields, renderFields, renderField, List.length_cons, List.length_append,
        newlineIndent_length]
      rcases Nat.le_total (1 + needVal p.2) (needFields ps) with hle | hle
      · rw [Nat.max_eq_right hle]
        omega
      · rw [Nat.max_eq_left hle]
        omega

/-- The parser fuel a rendered value needs, against its length. -/
theorem needVal_le_render (j : Json) : ∀ ind, needVal j ≤ (renderJson ind j).length + 1 := by
  induction j using Json.ind with
  | hnull =>
      intro ind
      simp only [needVal]
      omega
  | hbool b =>
      intro ind
      simp only [needVal]
      omega
  | hnum n =>
      intro ind
      simp only [needVal]
      omega
  | hstr s =>
      intro ind
      simp only [needVal]
      omega
  | harr l hl =>
      intro ind
      cases l with
      | nil =>
          simp only [needVal, needList, renderJson]
          decide
      | cons x xs =>
          have h1 := hl x (List.mem_cons_self x xs) (ind + 2)
          have h2 := needList_le_render xs (ind + 2)
            (fun y hy i => hl y (List.mem_cons_of_mem x hy) i)
          simp only [needVal, needList, renderJson, List.length_cons, List.length_append,
            newlineIndent_length]
          rcases Nat.le_total (needVal x) (needList xs) with hle | hle
          · rw [Nat.max_eq_right hle]
            omega
          · rw [Nat.max_eq_left hle]
            omega
  | hobj l hl =>
      intro ind
      cases l with
      | nil =>
          simp only [needVal, needFields, renderJson]
          decide
      | cons p ps =>
          have h1 := hl p (List.mem_cons_self p ps) (ind + 2)
          have h2 := needFields_le_render ps (ind + 2)
            (fun q hq i => hl q (List.mem_cons_of_mem p hq) i)
          simp only [needVal, needFields, renderJson, renderField, List.length_cons,
            List.length_append, newlineIndent_length]
          rcases Nat.le_total (1 + needVal p.2) (needFields ps) with hle | hle
          · rw [Nat.max_eq_right hle]
            omega
          · rw [Nat.max_eq_left hle]
            omega


/-! ## The round trip (C6): the grand induction -/

/-- Reading one rendered member back (after its opening quote). -/
theorem parseMember_render (k : String) (v : Json)
    (hv : wfJson v = true → ∀ fuel ind rest, needVal v ≤ fuel → NumDelim rest →
      parseVal fuel (renderJson ind v ++ rest) = some (v, rest))
    (hwf : wfJson v = true) (fuel ind : Nat) (rest2 : List Char)
    (hfuel : 1 + needVal v ≤ fuel) (hnd : NumDelim rest2) :
    parseMember fuel
        (escapeList k.data ++ '"' :: ':' :: ' ' :: (renderJson ind v ++ rest2)) =
      some ((k, v), rest2) := by
  obtain ⟨f, rfl⟩ : ∃ f, fuel = f + 1 := ⟨fuel - 1, by omega⟩
  simp only [parseMember]
  rw [parseStringBody_escapeList k.data (':' :: ' ' :: (renderJson ind v ++ rest2))]
  simp only []
  rw [skipWs_cons_false ':' _ (by decide)]
  simp only []
  rw [if_pos trivial]
  have hws := parseVal_wsPre f [' '] (renderJson ind v ++ rest2)
    (by intro c hc; simp only [List.mem_singleton] at hc; subst hc; rfl)
  rw [show (' ' :: (renderJson ind v ++ rest2)) = [' '] ++ (renderJson ind v ++ rest2) from rfl]
  rw [hws, hv hwf f ind rest2 (by omega) hnd]

/-- Reading a rendered array tail back. -/
theorem parseArrRest_render (xs : List Json)
    (hx : ∀ x ∈ xs, wfJson x = true → ∀ fuel ind rest, needVal x ≤ fuel → NumDelim rest →
      parseVal fuel (renderJson ind x ++ rest) = some (x, rest))
    (hwf : wfList xs = true) :
    ∀ fuel ind ind0 rest, needList xs ≤ fuel →
      parseArrRest fuel (renderElems ind xs ++ (newlineIndent ind0 ++ (']' :: rest))) =
        some (xs, rest) := by
  induction xs with
  | nil =>
      intro fuel ind ind0 rest hfuel
      simp only [needList] at hfuel
      obtain ⟨f, rfl⟩ : ∃ f, fuel = f + 1 := ⟨fuel - 1, by omega⟩
      simp only [renderElems, List.nil_append, parseArrRest]
      rw [skipWs_ws_append _ _ (newlineIndent_ws ind0)]
      rw [skipWs_cons_false ']' rest (by decide)]
      simp
  | cons x xs ih =>
      intro fuel ind ind0 rest hfuel
      simp only [needList] at hfuel
      obtain ⟨f, rfl⟩ : ∃ f, fuel = f + 1 := ⟨fuel - 1, by omega⟩
      have hwx : wfJson x = true ∧ wfList xs = true := by
        simp only [wfList, Bool.and_eq_true] at hwf
        exact hwf
      have hmax1 := Nat.le_max_left (needVal x) (needList xs)
      have hmax2 := Nat.le_max_right (needVal x) (needList xs)
      simp only [renderElems, List.cons_append, List.append_assoc, parseArrRest]
      rw [skipWs_cons_false ',' _ (by decide)]
      simp only []
      rw [if_neg (by decide : ¬(',' : Char) = ']'), if_pos trivial]
      rw [show newlineIndent ind ++ (renderJson ind x ++
          (renderElems ind xs ++ (newlineIndent ind0 ++ ']' :: rest))) =
        newlineIndent ind ++ (renderJson ind x ++
          (renderElems ind xs ++ (newlineIndent ind0 ++ (']' :: rest)))) from rfl]
      rw [parseVal_wsPre f (newlineIndent ind) _ (newlineIndent_ws ind)]
      rw [hx x (List.mem_cons_self x xs) hwx.1 f ind
        (renderElems ind xs ++ (newlineIndent ind0 ++ (']' :: rest))) (by omega)
        (numDelim_elems ind ind0 xs rest)]
      simp only []
      rw [ih (fun y hy => hx y (List.mem_cons_of_mem x hy)) hwx.2 f ind ind0 rest (by omega)]

/-- Reading a rendered object tail back. -/
theorem parseObjRest_render (ps : List (String × Json))
    (hp : ∀ p ∈ ps, wfJson (p : String × Json).2 = true → ∀ fuel ind rest,
      needVal p.2 ≤ fuel → NumDelim rest →
      parseVal fuel (renderJson ind p.2 ++ rest) = some (p.2, rest))
    (hwf : wfFields ps = true) :
    ∀ fuel ind ind0 rest, needFields ps ≤ fuel →
      parseObjRest fuel (renderFields ind ps ++ (newlineIndent ind0 ++ ('\x7d' :: rest))) =
        some (ps, rest) := by
  induction ps with
  | nil =>
      intro fuel ind ind0 rest hfuel
      simp only [needFields] at hfuel
      obtain ⟨f, rfl⟩ : ∃ f, fuel = f + 1 := ⟨fuel - 1, by omega⟩
      simp only [renderFields, List.nil_append, parseObjRest]
      rw [skipWs_ws_append _ _ (newlineIndent_ws ind0)]
      rw [skipWs_cons_false '\x7d' rest (by decide)]
      simp
  | cons p ps ih =>
      intro fuel ind ind0 rest hfuel
      simp only [needFields] at hfuel
      obtain ⟨f, rfl⟩ : ∃ f, fuel = f + 1 := ⟨fuel - 1, by omega⟩
      have hwp : wfJson p.2 = true ∧ wfFields ps = true := by
        simp only [wfFields, Bool.and_eq_true] at hwf
        exact hwf
      have hmax1 := Nat.le_max_left (1 + needVal p.2) (needFields ps)
      have hmax2 := Nat.le_max_right (1 + needVal p.2) (needFields ps)
      simp only [renderFields, List.cons_append, List.append_assoc, parseObjRest]
      rw [skipWs_cons_false ',' _ (by decide)]
      simp only []
      rw [if_neg (by decide : ¬(',' : Char) = '\x7d'), if_pos trivial]
      have hskip2 : skipWs (newlineIndent ind ++ (renderField ind p ++
          (renderFields ind ps ++ (newlineIndent ind0 ++ '\x7d' :: rest)))) =
          '"' :: (escapeList p.1.data ++ '"' :: ':' :: ' ' :: (renderJson ind p.2 ++
            (renderFields ind ps ++ (newlineIndent ind0 ++ ('\x7d' :: rest))))) := by
        rw [skipWs_ws_append _ _ (newlineIndent_ws ind)]
        have hshape : renderField ind p ++
            (renderFields ind ps ++ (newlineIndent ind0 ++ '\x7d' :: rest)) =
            '"' :: (escapeList p.1.data ++ '"' :: ':' :: ' ' :: (renderJson ind p.2 ++
              (renderFields ind ps ++ (newlineIndent ind0 ++ ('\x7d' :: rest))))) := by
          simp only [renderField, List.cons_append, List.append_assoc, List.singleton_append,
            List.nil_append]
        rw [hshape, skipWs_cons_false '"' _ (by decide)]
      rw [hskip2]
      simp only []
      rw [if_pos trivial]
      rw [parseMember_render p.1 p.2 (hp p (List.mem_cons_self p ps)) hwp.1 f ind
        (renderFields ind ps ++ (newlineIndent ind0 ++ ('\x7d' :: rest))) (by omega)
        (numDelim_fields ind ind0 ps rest)]
      simp only []
      rw [ih (fun q hq => hp q (List.mem_cons_of_mem p hq)) hwp.2 f ind ind0 rest (by omega)]

/-- **The round trip.** A rendered well-formed value parses back to
itself, leaving exactly the continuation. -/
theorem parseVal_render (j : Json) : wfJson j = true → ∀ fuel ind rest, needVal j ≤ fuel →
    NumDelim rest → parseVal fuel (renderJson ind j ++ rest) = some (j, rest) := by
  induction j using Json.ind with
  | hnull =>
      intro _ fuel ind rest hfuel _
      simp only [needVal] at hfuel
      obtain ⟨f, rfl⟩ : ∃ f, fuel = f + 1 := ⟨fuel - 1, by omega⟩
      simp only [renderJson]
      rw [show ("null".data ++ rest) = 'n' :: 'u' :: 'l' :: 'l' :: rest from rfl]
      simp only [parseVal]
      rw [skipWs_cons_false 'n' _ (by decide)]
      simp
  | hbool b =>
      intro _ fuel ind rest hfuel _
      simp only [needVal] at hfuel
      obtain ⟨f, rfl⟩ : ∃ f, fuel = f + 1 := ⟨fuel - 1, by omega⟩
      cases b
      · simp only [renderJson]
        rw [show ("false".data ++ rest) = 'f' :: 'a' :: 'l' :: 's' :: 'e' :: rest from rfl]
        simp only [parseVal]
        rw [skipWs_cons_false 'f' _ (by decide)]
        simp
      · simp only [renderJson]
        rw [show ("true".data ++ rest) = 't' :: 'r' :: 'u' :: 'e' :: rest from rfl]
        simp only [parseVal]
        rw [skipWs_cons_false 't' _ (by decide)]
        simp
  | hnum n =>
      intro _ fuel ind rest hfuel hnd
      simp only [needVal] at hfuel
      obtain ⟨f, rfl⟩ : ∃ f, fuel = f + 1 := ⟨fuel - 1, by omega⟩
      simp only [renderJson]
      unfold intRender
      by_cases hn : n < 0
      · rw [if_pos hn, List.cons_append]
        simp only [parseVal]
        rw [skipWs_cons_false '-' _ (by decide)]
        simp only []
        rw [if_neg (by decide : ¬('-' : Char) = 'n'), if_neg (by decide : ¬('-' : Char) = 't'),
          if_neg (by decide : ¬('-' : Char) = 'f'), if_neg (by decide : ¬('-' : Char) = '"'),
          if_pos trivial]
        rw [parseNatNum_natDigits n.natAbs rest hnd]
        simp only []
        have : -(n.natAbs : Int) = n := by omega
        rw [this]
      · rw [if_neg hn]
        rcases hne : natDigits n.natAbs with _ | ⟨c, cs⟩
        · exact absurd hne (natDigits_ne_nil _)
        · have hf := natDigits_facts n.natAbs c (by rw [hne]; exact List.mem_cons_self c cs)
          rw [List.cons_append]
          simp only [parseVal]
          rw [skipWs_cons_false c _ hf.2.1]
          simp only []
          rw [if_neg hf.2.2.1, if_neg hf.2.2.2.1, if_neg hf.2.2.2.2.1,
            if_neg hf.2.2.2.2.2.1, if_neg hf.2.2.2.2.2.2.1, if_pos hf.1]
          rw [show (c :: (cs ++ rest)) = (c :: cs) ++ rest from rfl, ← hne]
          rw [parseNatNum_natDigits n.natAbs rest hnd]
          simp only []
          have : (n.natAbs : Int) = n := by omega
          rw [this]
  | hstr s =>
      intro _ fuel ind rest hfuel _
      simp only [needVal] at hfuel
      obtain ⟨f, rfl⟩ : ∃ f, fuel = f + 1 := ⟨fuel - 1, by omega⟩
      simp only [renderJson, List.cons_append, List.append_assoc, List.singleton_append,
        List.nil_append]
      simp only [parseVal]
      rw [skipWs_cons_false '"' _ (by decide)]
      simp only []
      rw [if_neg (by decide : ¬('"' : Char) = 'n'), if_neg (by decide : ¬('"' : Char) = 't'),
        if_neg (by decide : ¬('"' : Char) = 'f'), if_pos trivial]
      rw [parseStringBody_escapeList s.data rest]
  | harr l hl =>
      intro hwf fuel ind rest hfuel _
      have hwfl : wfList l = true := by
        simp only [wfJson] at hwf
        exact hwf
      simp only [needVal] at hfuel
      obtain ⟨f, rfl⟩ : ∃ f, fuel = f + 1 := ⟨fuel - 1, by omega⟩
      cases l with
      | nil =>
          simp only [renderJson]
          rw [show ("[]".data ++ rest) = '[' :: ']' :: rest from rfl]
          simp only [parseVal]
          rw [skipWs_cons_false '[' _ (by decide)]
          simp only []
          rw [if_neg (by decide : ¬('[' : Char) = 'n'), if_neg (by decide : ¬('[' : Char) = 't'),
            if_neg (by decide : ¬('[' : Char) = 'f'), if_neg (by decide : ¬('[' : Char) = '"'),
            if_neg (by decide : ¬('[' : Char) = '-'),
            if_neg (by decide : ¬('['.isDigit = true)), if_pos trivial]
          simp only [needList] at hfuel
          obtain ⟨f2, rfl⟩ : ∃ f2, f = f2 + 1 := ⟨f - 1, by omega⟩
          simp only [parseArrItems]
          rw [skipWs_cons_false ']' _ (by decide)]
          simp
      | cons x xs =>
          simp only [needList] at hfuel
          have hmax1 := Nat.le_max_left (needVal x) (needList xs)
          have hmax2 := Nat.le_max_right (needVal x) (needList xs)
          obtain ⟨f2, rfl⟩ : ∃ f2, f = f2 + 1 := ⟨f - 1, by omega⟩
          simp only [renderJson, List.cons_append, List.append_assoc, List.singleton_append,
            List.nil_append]
          simp only [parseVal]
          rw [skipWs_cons_false '[' _ (by decide)]
          simp only []
          rw [if_neg (by decide : ¬('[' : Char) = 'n'), if_neg (by decide : ¬('[' : Char) = 't'),
            if_neg (by decide : ¬('[' : Char) = 'f'), if_neg (by decide : ¬('[' : Char) = '"'),
            if_neg (by decide : ¬('[' : Char) = '-'),
            if_neg (by decide : ¬('['.isDigit = true)), if_pos trivial]
          rw [parseArrItems_wsPre (f2 + 1) (newlineIndent (ind + 2)) _
            (newlineIndent_ws (ind + 2))]
          simp only [parseArrItems]
          obtain ⟨c0, cs0, hhead, h0ws, h0ne⟩ := renderJson_head (ind + 2) x
          have hskip : skipWs (renderJson (ind + 2) x ++
              (renderElems (ind + 2) xs ++ (newlineIndent ind ++ ']' :: rest))) =
              c0 :: (cs0 ++ (renderElems (ind + 2) xs ++ (newlineIndent ind ++ ']' :: rest))) := by
            rw [hhead, List.cons_append, skipWs_cons_false c0 _ h0ws]
          rw [hskip]
          simp only []
          rw [if_neg h0ne]
          have hwx : wfJson x = true ∧ wfList xs = true := by
            simp only [wfList, Bool.and_eq_true] at hwfl
            exact hwfl
          rw [show renderElems (ind + 2) xs ++ (newlineIndent ind ++ ']' :: rest) =
            renderElems (ind + 2) xs ++ (newlineIndent ind ++ (']' :: rest)) from rfl]
          rw [hl x (List.mem_cons_self x xs) hwx.1 f2 (ind + 2)
            (renderElems (ind + 2) xs ++ (newlineIndent ind ++ (']' :: rest))) (by omega)
            (numDelim_elems (ind + 2) ind xs rest)]
          simp only []
          rw [parseArrRest_render xs (fun y hy => hl y (List.mem_cons_of_mem x hy)) hwx.2
            f2 (ind + 2) ind rest (by omega)]
  | hobj l hl =>
      intro hwf fuel ind rest hfuel _
      have hwfl : keysNodupB l = true ∧ wfFields l = true := by
        simp only [wfJson, Bool.and_eq_true] at hwf
        exact hwf
      simp only [needVal] at hfuel
      obtain ⟨f, rfl⟩ : ∃ f, fuel = f + 1 := ⟨fuel - 1, by omega⟩
      cases l with
      | nil =>
          simp only [renderJson]
          rw [show ("\x7b\x7d".data ++ rest) = '\x7b' :: '\x7d' :: rest from rfl]
          simp only [parseVal]
          rw [skipWs_cons_false '\x7b' _ (by decide)]
          simp only []
          rw [if_neg (by decide : ¬('\x7b' : Char) = 'n'),
            if_neg (by decide : ¬('\x7b' : Char) = 't'),
            if_neg (by decide : ¬('\x7b' : Char) = 'f'),
            if_neg (by decide : ¬('\x7b' : Char) = '"'),
            if_neg (by decide : ¬('\x7b' : Char) = '-'),
            if_neg (by decide : ¬('\x7b'.isDigit = true)),
            if_neg (by decide : ¬('\x7b' : Char) = '['), if_pos trivial]
          simp only [needFields] at hfuel
          obtain ⟨f2, rfl⟩ : ∃ f2, f = f2 + 1 := ⟨f - 1, by omega⟩
          simp only [parseObjItems]
          rw [skipWs_cons_false '\x7d' _ (by decide)]
          simp [mkDict]
      | cons p ps =>
          simp only [needFields] at hfuel
          have hmax1 := Nat.le_max_left (1 + needVal p.2) (needFields ps)
          have hmax2 := Nat.le_max_right (1 + needVal p.2) (needFields ps)
          obtain ⟨f2, rfl⟩ : ∃ f2, f = f2 + 1 := ⟨f - 1, by omega⟩
          simp only [renderJson, List.cons_append, List.append_assoc, List.singleton_append,
            List.nil_append]
          simp only [parseVal]
          rw [skipWs_cons_false '\x7b' _ (by decide)]
          simp only []
          rw [if_neg (by decide : ¬('\x7b' : Char) = 'n'),
            if_neg (by decide : ¬('\x7b' : Char) = 't'),
            if_neg (by decide : ¬('\x7b' : Char) = 'f'),
            if_neg (by decide : ¬('\x7b' : Char) = '"'),
            if_neg (by decide : ¬('\x7b' : Char) = '-'),
            if_neg (by decide : ¬('\x7b'.isDigit = true)),
            if_neg (by decide : ¬('\x7b' : Char) = '['), if_pos trivial]
          rw [parseObjItems_wsPre (f2 + 1) (newlineIndent (ind + 2)) _
            (newlineIndent_ws (ind + 2))]
          simp only [parseObjItems]
          have hwp : wfJson p.2 = true ∧ wfFields ps = true := by
            have := hwfl.2
            simp only [wfFields, Bool.and_eq_true] at this
            exact this
          have hskip2 : skipWs (renderField (ind + 2) p ++
              (renderFields (ind + 2) ps ++ (newlineIndent ind ++ '\x7d' :: rest))) =
              '"' :: (escapeList p.1.data ++ '"' :: ':' :: ' ' :: (renderJson (ind + 2) p.2 ++
                (renderFields (ind + 2) ps ++ (newlineIndent ind ++ ('\x7d' :: rest))))) := by
            have hshape : renderField (ind + 2) p ++
                (renderFields (ind + 2) ps ++ (newlineIndent ind ++ '\x7d' :: rest)) =
                '"' :: (escapeList p.1.data ++ '"' :: ':' :: ' ' :: (renderJson (ind + 2) p.2 ++
                  (renderFields (ind + 2) ps ++ (newlineIndent ind ++ ('\x7d' :: rest))))) := by
              simp only [renderField, List.cons_append, List.append_assoc,
                List.singleton_append, List.nil_append]
            rw [hshape, skipWs_cons_false '"' _ (by decide)]
          rw [hskip2]
          simp only []
          rw [if_neg (by decide : ¬('"' : Char) = '\x7d'), if_pos trivial]
          rw [parseMember_render p.1 p.2 (hl p (List.mem_cons_self p ps)) hwp.1 f2 (ind + 2)
            (renderFields (ind + 2) ps ++ (newlineIndent ind ++ ('\x7d' :: rest))) (by omega)
            (numDelim_fields (ind + 2) ind ps rest)]
          simp only []
          rw [parseObjRest_render ps (fun q hq => hl q (List.mem_cons_of_mem p hq)) hwp.2
            f2 (ind + 2) ind rest (by omega)]
          simp only []
          rw [mkDict_nodup (p :: ps) hwfl.1]


/-- `json.loads` inverts `json.dump(..., indent=2)` on well-formed
values. -/
theorem parseJson_dumps (j : Json) (hwf : wfJson j = true) :
    parseJson (dumps j) = some j := by
  have hnd : NumDelim ([] : List Char) := by
    intro c hc
    simp at hc
  have hdata : (dumps j).data = renderJson 0 j := rfl
  have hb : needVal j ≤ 2 * (dumps j).data.length + 2 := by
    have h1 := needVal_le_render j 0
    rw [hdata]
    omega
  have h := parseVal_render j hwf (2 * (dumps j).data.length + 2) 0 [] hb hnd
  rw [List.append_nil] at h
  unfold parseJson
  rw [hdata] at h
  rw [hdata, h]
  simp [skipWs]

/-- **C6.** For every list response successfully fetched (a JSON array,
as the list endpoint returns, with the duplicate-free dicts a JSON
parse produces), the run writes the snapshot file
`<run_dir>/applications_list_<timestamp>.json` whose content is the
`indent=2` serialisation of that response, and parsing that written
content yields exactly the list value `get_applications` returned. -/
theorem c6_snapshot_roundtrip (d : Downloader) (o : NetOracle) (t : DateTime) (fs : FS)
    (l : List Json) (evL : List Event)
    (hget : get_applications d o = (.ok (Json.arr l), evL))
    (hwf : wfJson (Json.arr l) = true) :
    Event.fileWrite
        (pathJoin d.download_dir ("applications_list_" ++ strftimeTimestamp t ++ ".json"))
        (dumps (Json.arr l)) ∈ (process_all_applications d o t fs).2 ∧
      parseJson (dumps (Json.arr l)) = some (Json.arr l) := by
  refine ⟨?_, parseJson_dumps (Json.arr l) hwf⟩
  unfold process_all_applications
  rw [hget]
  simp only [pyLen, pyIter]
  rcases hL : processLoop d o l.length l 1
      (fs.write (pathJoin d.download_dir
        ("applications_list_" ++ strftimeTimestamp t ++ ".json")) (dumps (Json.arr l)))
    with ⟨fs2, ev2, ab⟩
  cases ab <;> simp [List.mem_append, hL]

/-- Witness for C6: the snapshot of the fixture list response is written
and parses back to it. -/
theorem c6_snapshot_roundtrip_witness :
    wfJson appsFix = true ∧
    (Event.fileWrite
        (pathJoin dFix.download_dir
          ("applications_list_" ++ strftimeTimestamp t2fix ++ ".json"))
        (dumps appsFix) ∈ (process_all_applications dFix oracleFix t2fix fs0).2 ∧
      parseJson (dumps appsFix) = some appsFix) := by
  have hwf : wfJson appsFix = true := by
    simp [appsFix, wfJson, wfList, wfFields, keysNodupB]
  refine ⟨hwf, ?_⟩
  exact c6_snapshot_roundtrip dFix oracleFix t2fix fs0
    [Json.obj [("domain", Json.str "app1")], Json.obj [("id", Json.num 7)]]
    [Event.printed ("\nCalling applications list endpoint: " ++
        "https://anypoint.mulesoft.com/cloudhub/api/applications"),
      Event.printed "Headers used:",
      Event.printed ("x-anypnt-env-id: " ++ "env-1"),
      Event.printed ("x-anypnt-org-id: " ++ "org-1"),
      Event.httpGet .list ("https://anypoint.mulesoft.com/cloudhub/api" ++ "/applications")
        dFix.sessionHeaders]
    rfl hwf

end MulesoftDownloader
